import Mathlib

/-!
A shallow embedding of `jpgdig.c`.

`jpgdig.c` reads a forensic image in blocks of `BLOCK_SIZE` bytes, tests the
start of every block with `sigcheck`, and writes each run of blocks that starts
at a signature block into its own numbered file.

Modelling choices.

* A byte (`uint8_t`) is a `Nat`; the code only compares bytes, no arithmetic on
  them can overflow.  `nfile` (`unsigned int`) is a `Nat`: it never passes 1000.
* The read buffer is the memory behind the pointer `buffer`, a function from the
  offset to the byte stored there.  `fread` overwrites the first `n` offsets
  and leaves the others as they were.
* The input is the list of the blocks the successive `fread` calls deliver.  The
  loop stops at the end of the list or at a block of length 0 (`fread`
  returning 0).
* A `FILE*` for a recovered file is the value of `nfile` the name was made
  from; `NULL` is `none`.  The directory of recovered files is an association
  list in creation order.
* Whether `fopen(filename, "w")` succeeds is a parameter `canCreate`.
* The start of `main` (argument test, opening of the input) is the function
  `main`; what `fopen(path, "r")` yields is a parameter `openInput`.
-/

namespace Jpgdig

/-! ## Constants (`#define`s) -/

/-- Size of read/write block in bytes. -/
def BLOCK_SIZE : Nat := 512

/-- Size of the JPEG signature in bytes. -/
def SIG_SIZE : Nat := 3

/-- Lower bound of the fourth byte. -/
def FOURTH_BYTE_MIN : Nat := 0xe0

/-- Upper bound of the fourth byte. -/
def FOURTH_BYTE_MAX : Nat := 0xef

/-- Maximum number of writable files, as the source names it. -/
def NUM_FILE_MAX : Nat := 999

/-- Exit status of `exit(EXIT_SUCCESS)`. -/
def EXIT_SUCCESS : Nat := 0

/-- Exit status of `exit(EXIT_FAILURE)`. -/
def EXIT_FAILURE : Nat := 1

/-- Exit status of `exit(EXIT_HELP_NEEDED)`. -/
def EXIT_HELP_NEEDED : Nat := 2

/-! ## sigcheck -/

/-- Memory behind a `uint8_t*`: the byte stored at each offset. -/
abbrev Buffer := Nat → Nat

/-- The array `jpg_sig[SIG_SIZE]` of `sigcheck`. -/
def jpg_sig : List Nat := [0xff, 0xd8, 0xff]

/-- The `for` loop of `sigcheck`, entered with index `i` and the signature bytes
`jpg_sig[i..]` still to compare.  `none`: the body executed `return false`.
`some j`: the loop ended normally with `i = j` (either `i < SIG_SIZE` failed, the
list is exhausted, or `i < buf_size` failed). -/
def sigLoop (buf : Buffer) (buf_size : Nat) : List Nat → Nat → Option Nat
  | [], i => some i
  | s :: rest, i =>
    if i < buf_size then
      if buf i ≠ s then none else sigLoop buf buf_size rest (i + 1)
    else some i

/-- Translation of `bool sigcheck(const uint8_t* buf, const int buf_size)`. -/
def sigcheck (buf : Buffer) (buf_size : Nat) : Bool :=
  match sigLoop buf buf_size jpg_sig 0 with
  | none => false
  | some i =>
    if buf i < FOURTH_BYTE_MIN ∨ buf i > FOURTH_BYTE_MAX then false else true

/-! ## The block reader -/

/-- One call `fread(buffer, sizeof(uint8_t), BLOCK_SIZE, img_fp)` that delivers
the bytes `blk`: they overwrite the start of the buffer, the other offsets keep
their old contents, and the number of bytes delivered is returned. -/
def fread (buf : Buffer) (blk : List Nat) : Buffer × Nat :=
  (fun i => if i < blk.length then blk.getD i 0 else buf i, blk.length)

/-- A block sequence that `fread` can deliver inside the loop: every block has
between 1 and `BLOCK_SIZE` bytes. -/
def ValidBlocks (blocks : List (List Nat)) : Prop :=
  ∀ b ∈ blocks, 1 ≤ b.length ∧ b.length ≤ BLOCK_SIZE

instance (blocks : List (List Nat)) : Decidable (ValidBlocks blocks) := by
  unfold ValidBlocks; infer_instance

/-- The block sequence of a regular file: every block but the last is full. -/
def FileBlocks : List (List Nat) → Prop
  | [] => True
  | [b] => 1 ≤ b.length ∧ b.length ≤ BLOCK_SIZE
  | b :: c :: rest => b.length = BLOCK_SIZE ∧ FileBlocks (c :: rest)

/-! ## Recovered files and the state of `main` -/

/-- The name `sprintf(filename, "%03d.jpg", n)` produces: `n` in decimal, padded
with zeros on the left to at least three digits, then `.jpg`. -/
def filename (n : Nat) : String :=
  String.mk (List.replicate (3 - (Nat.toDigits 10 n).length) '0'
    ++ Nat.toDigits 10 n ++ ['.', 'j', 'p', 'g'])

/-- Calls on the C library that `main` makes after the input is open. -/
inductive Event where
  /-- A call `fopen(filename, "w")` and the handle it returned. -/
  | fopenW (name : String) (handle : Option Nat)
  /-- A call `fclose(jpg_fp)`. -/
  | fclose (handle : Option Nat)
  /-- A call `fwrite(buffer, sizeof(uint8_t), chunks_read, jpg_fp)`. -/
  | fwrite (handle : Nat) (data : List Nat)
  /-- A call `fclose(img_fp)`. -/
  | fcloseImg
  /-- A call `free(buffer)`. -/
  | freeBuffer
  deriving DecidableEq, Repr

/-- How `main` left the loop. -/
inductive Termination where
  /-- End of input, `exit(EXIT_SUCCESS)`. -/
  | success
  /-- `Error: Could not create <filename>`, `exit(EXIT_FAILURE)`. -/
  | createFailed (idx : Nat)
  /-- `Error: Max number of files reached`, `exit(EXIT_FAILURE)`. -/
  | maxFiles
  deriving DecidableEq, Repr

/-- The exit status that goes with each way of leaving. -/
def Termination.status : Termination → Nat
  | .success => EXIT_SUCCESS
  | .createFailed _ => EXIT_FAILURE
  | .maxFiles => EXIT_FAILURE

/-- The variables of `main` that live across loop iterations, the directory of
recovered files (index of the name, content) and the library calls made. -/
structure State where
  /-- The contents of `buffer`. -/
  buffer : Buffer
  /-- The variable `jpg_fp`. -/
  jpg_fp : Option Nat
  /-- The variable `nfile`. -/
  nfile : Nat
  /-- Recovered files, in creation order. -/
  files : List (Nat × List Nat)
  /-- Library calls, oldest first. -/
  log : List Event

/-- Effect of a successful `fopen(filename, "w")` on the directory: a file of
that name is created empty (an older one of the same name is replaced). -/
def fsOpen (idx : Nat) (files : List (Nat × List Nat)) : List (Nat × List Nat) :=
  files.filter (fun f => f.1 ≠ idx) ++ [(idx, [])]

/-- Effect of `fwrite` through the handle `idx`: the data is appended to that
file. -/
def fsWrite (idx : Nat) (data : List Nat) (files : List (Nat × List Nat)) :
    List (Nat × List Nat) :=
  files.map (fun f => if f.1 = idx then (f.1, f.2 ++ data) else f)

/-- The state before the first iteration: `jpg_fp = NULL`, `nfile = 0`, nothing
recovered; `buf0` is what `malloc` returned. -/
def init (buf0 : Buffer) : State :=
  { buffer := buf0, jpg_fp := none, nfile := 0, files := [], log := [] }

/-- Result of one loop iteration. -/
inductive Outcome where
  /-- The iteration reached the end of the loop body. -/
  | running (s : State)
  /-- The iteration called `exit`. -/
  | exited (t : Termination) (s : State)

/-- The statement `if (jpg_fp != NULL) fwrite(buffer, 1, chunks_read, jpg_fp);`
that ends the loop body. -/
def writeBlock (s : State) (chunks_read : Nat) : State :=
  match s.jpg_fp with
  | some h =>
    let data := (List.range chunks_read).map s.buffer
    { s with files := fsWrite h data s.files, log := s.log ++ [Event.fwrite h data] }
  | none => s

/-- The statement `if (jpg_fp != NULL) fclose(jpg_fp);`. -/
def closePrevious (s : State) : State :=
  match s.jpg_fp with
  | some h => { s with log := s.log ++ [Event.fclose (some h)] }
  | none => s

/-- The loop body of `main`, run on a state whose buffer already holds the
block just read (`chunks_read` bytes, not 0). -/
def loopBody (canCreate : Nat → Bool) (s : State) (chunks_read : Nat) : Outcome :=
  if sigcheck s.buffer chunks_read && decide (s.nfile ≤ NUM_FILE_MAX) then
    let s1 := closePrevious s
    let idx := s1.nfile
    let s2 := { s1 with nfile := s1.nfile + 1 }
    if canCreate idx then
      let s3 := { s2 with jpg_fp := some idx, files := fsOpen idx s2.files,
                          log := s2.log ++ [Event.fopenW (filename idx) (some idx)] }
      Outcome.running (writeBlock s3 chunks_read)
    else
      Outcome.exited (Termination.createFailed idx)
        { s2 with jpg_fp := none,
                  log := s2.log ++ [Event.fopenW (filename idx) none, Event.fcloseImg,
                                    Event.freeBuffer] }
  else if s.nfile > NUM_FILE_MAX then
    Outcome.exited Termination.maxFiles
      { s with log := s.log ++ [Event.fcloseImg, Event.fclose s.jpg_fp, Event.freeBuffer] }
  else
    Outcome.running (writeBlock s chunks_read)

/-- The code after the loop: close the open file, close the input, free the
buffer, `exit(EXIT_SUCCESS)`. -/
def finish (s : State) : Termination × State :=
  let s1 := closePrevious s
  (Termination.success, { s1 with log := s1.log ++ [Event.fcloseImg, Event.freeBuffer] })

/-- The `while` loop of `main` and the code after it, on the blocks that the
successive `fread` calls deliver. -/
def carve (canCreate : Nat → Bool) : State → List (List Nat) → Termination × State
  | s, [] => finish s
  | s, blk :: rest =>
    let r := fread s.buffer blk
    let s0 := { s with buffer := r.1 }
    if r.2 = 0 then finish s0
    else
      match loopBody canCreate s0 r.2 with
      | Outcome.running s1 => carve canCreate s1 rest
      | Outcome.exited t s1 => (t, s1)

/-- The `while` loop of `main` alone: the state in which the loop is left when the
input ends, or the exit taken inside the loop body. -/
def runLoop (canCreate : Nat → Bool) : State → List (List Nat) → Outcome
  | s, [] => Outcome.running s
  | s, blk :: rest =>
    let r := fread s.buffer blk
    let s0 := { s with buffer := r.1 }
    if r.2 = 0 then Outcome.running s0
    else
      match loopBody canCreate s0 r.2 with
      | Outcome.running s1 => runLoop canCreate s1 rest
      | Outcome.exited t s1 => Outcome.exited t s1

/-- For each block, the value `sigcheck(buffer, chunks_read)` has when the block
has just been read into a buffer that held `buf` before the first read. -/
def sigFlags (buf : Buffer) : List (List Nat) → List Bool
  | [] => []
  | blk :: rest =>
    let r := fread buf blk
    sigcheck r.1 r.2 :: sigFlags r.1 rest

/-- Positions of the `true` entries of a flag list, counted from `off`. -/
def positionsFrom (off : Nat) : List Bool → List Nat
  | [] => []
  | f :: fs => if f then off :: positionsFrom (off + 1) fs else positionsFrom (off + 1) fs

/-- Positions of the blocks on which `sigcheck` returns true. -/
def sigPositions (buf : Buffer) (blocks : List (List Nat)) : List Nat :=
  positionsFrom 0 (sigFlags buf blocks)

/-! ## The partition of the input at signature blocks, as the specification words it -/

/-- Contents of the files from the open one on, when the open file holds `cur`
and the blocks `bs` with flags `fs` are still to come: a flagged block ends the
open file and starts the next one, any other block is appended. -/
def segments : List Bool → List (List Nat) → List Nat → List (List Nat)
  | true :: fs, b :: bs, cur => cur :: segments fs bs b
  | false :: fs, b :: bs, cur => segments fs bs (cur ++ b)
  | _, _, cur => [cur]

/-- Contents of the files when no file is open yet: blocks before the first flagged
block belong to no file. -/
def segmentsIdle : List Bool → List (List Nat) → List (List Nat)
  | true :: fs, b :: bs => segments fs bs b
  | false :: fs, _ :: bs => segmentsIdle fs bs
  | _, _ => []

/-- The blocks from position `p` up to, not including, position `q`, concatenated. -/
def slice (blocks : List (List Nat)) (p q : Nat) : List Nat :=
  ((blocks.take q).drop p).flatten

/-- For start positions `ps`: the slice from each position to the next one, the
last slice running to the end of the input. -/
def slices (blocks : List (List Nat)) : List Nat → List (List Nat)
  | [] => []
  | p :: qs => slice blocks p (qs.headD blocks.length) :: slices blocks qs

/-- A buffer of zero bytes. -/
def zeroBuf : Buffer := fun _ => 0

/-- A full block that starts with the signature `ff d8 ff e0`. -/
def sigBlock : List Nat := 0xff :: 0xd8 :: 0xff :: 0xe0 :: List.replicate 508 0

/-- A full block of zero bytes but for `e0` at offset 1. -/
def staleBlock : List Nat := 0 :: 0xe0 :: List.replicate 510 0

/-- A full block that starts with `ff d8 ff f0`: the fourth byte is out of range. -/
def nearBlock : List Nat := 0xff :: 0xd8 :: 0xff :: 0xf0 :: List.replicate 508 0

/-- A full block of zero bytes. -/
def plainBlock : List Nat := List.replicate 512 0

/-- A short input: a block without signature, a signature block, a block without
signature, a second signature block, a last block without signature. -/
def demoBlocks : List (List Nat) :=
  [[1, 2, 3], [0xff, 0xd8, 0xff, 0xe0, 5], [7, 8], [0xff, 0xd8, 0xff, 0xef], [9]]

/-- A state of the scan with `000.jpg` open: the counter is 1. -/
def activeState : State :=
  { buffer := zeroBuf, jpg_fp := some 0, nfile := 1,
    files := [(0, [0xff, 0xd8, 0xff, 0xe0])],
    log := [Event.fopenW (filename 0) (some 0), Event.fwrite 0 [0xff, 0xd8, 0xff, 0xe0]] }

/-! ## Discipline of the calls on recovered files -/

/-- The names passed to `fopen(filename, "w")`, in call order. -/
def opens : List Event → List String
  | [] => []
  | Event.fopenW name _ :: rest => name :: opens rest
  | _ :: rest => opens rest

/-- Replay of the calls on recovered files, started with the handle `cur` open
(`none`: no file open).  The result is the handle open after the calls, or `none`
when a call breaks the discipline: an `fopen` while a file is open, an `fclose` of
`NULL` or of a handle that is not the open one, an `fwrite` through a handle that
is not the open one. -/
def sessions : Option Nat → List Event → Option (Option Nat)
  | cur, [] => some cur
  | cur, Event.fopenW _ h :: rest =>
    if cur = none then sessions h rest else none
  | cur, Event.fclose h :: rest =>
    if h ≠ none ∧ cur = h then sessions none rest else none
  | cur, Event.fwrite h _ :: rest =>
    if cur = some h then sessions cur rest else none
  | cur, Event.fcloseImg :: rest => sessions cur rest
  | cur, Event.freeBuffer :: rest => sessions cur rest

/-- What holds of the loop variables and of the calls made so far whenever the
loop condition is evaluated. -/
def LoopInv (s : State) : Prop :=
  s.jpg_fp = (if s.nfile = 0 then none else some (s.nfile - 1)) ∧
    s.nfile ≤ NUM_FILE_MAX + 1 ∧
    sessions none s.log = some s.jpg_fp ∧
    opens s.log = (List.range s.nfile).map filename

/-- What holds of the calls made when `main` calls `exit`. -/
def ExitInv (s : State) : Prop :=
  s.nfile ≤ NUM_FILE_MAX + 1 ∧
    sessions none s.log = some none ∧
    opens s.log = (List.range s.nfile).map filename

/-- The state carried by an outcome. -/
def Outcome.state : Outcome → State
  | Outcome.running s => s
  | Outcome.exited _ s => s

/-! ## The start of `main` -/

/-- Required command line argument count. -/
def REQ_ARG_COUNT : Nat := 2

/-- The macro `CF_CARD_FILE_INDEX`, which expands to `REQ_ARG_COUNT - 1`. -/
def CF_CARD_FILE_INDEX : Nat := REQ_ARG_COUNT - 1

/-- The brief help flag. -/
def HELP_FLAG_BRIEF : String := "-h"

/-- The verbose help flag. -/
def HELP_FLAG_VERBOSE : String := "--help"

/-- What a run of the program did: its exit status, the paths it passed to
`fopen(path, "r")`, and the scan when it reached the loop. -/
structure Run where
  /-- The argument of `exit`. -/
  status : Nat
  /-- The calls `fopen(path, "r")`. -/
  inputOpens : List String
  /-- The scan and its result, when the input was opened. -/
  scan : Option (Termination × State)

/-- The function `main`.  `argv` is the argument vector (`argc` is its length);
`openInput path` is what `fopen(path, "r")` gives: `none` for `NULL`, else the
blocks the reads of that file deliver; `buf0` is the content of the fresh buffer.
The test `argc != REQ_ARG_COUNT || !strcmp(..) || !strcmp(..)` is evaluated left to
right, so `argv[1]` is read only when `argc` is 2. -/
def main (argv : List String) (openInput : String → Option (List (List Nat)))
    (canCreate : Nat → Bool) (buf0 : Buffer) : Run :=
  if argv.length ≠ REQ_ARG_COUNT then
    { status := EXIT_HELP_NEEDED, inputOpens := [], scan := none }
  else if argv.getD CF_CARD_FILE_INDEX "" = HELP_FLAG_BRIEF then
    { status := EXIT_HELP_NEEDED, inputOpens := [], scan := none }
  else if argv.getD CF_CARD_FILE_INDEX "" = HELP_FLAG_VERBOSE then
    { status := EXIT_HELP_NEEDED, inputOpens := [], scan := none }
  else
    match openInput (argv.getD CF_CARD_FILE_INDEX "") with
    | none =>
      { status := EXIT_FAILURE, inputOpens := [argv.getD CF_CARD_FILE_INDEX ""], scan := none }
    | some blocks =>
      let r := carve canCreate (init buf0) blocks
      { status := r.1.status, inputOpens := [argv.getD CF_CARD_FILE_INDEX ""], scan := some r }

/-- The contents of the buffer after the blocks have been read one after the
other. -/
def bufferAfter (buf : Buffer) : List (List Nat) → Buffer
  | [] => buf
  | blk :: rest => bufferAfter (fread buf blk).1 rest

/-- Two states that agree on everything but the contents of the buffer. -/
def SameButBuffer (s t : State) : Prop :=
  s.jpg_fp = t.jpg_fp ∧ s.nfile = t.nfile ∧ s.files = t.files ∧ s.log = t.log

/-- The signature as the specification words it, read on the bytes of one block
alone: the block starts with `ff d8 ff` and its fourth byte lies in `[e0, ef]`.  A
block of fewer than four bytes holds no signature. -/
def beginsWithSignature : List Nat → Bool
  | a :: b :: c :: d :: _ =>
    decide (a = 0xff) && decide (b = 0xd8) && decide (c = 0xff) &&
      decide (FOURTH_BYTE_MIN ≤ d) && decide (d ≤ FOURTH_BYTE_MAX)
  | _ => false

/-- Positions of the blocks that begin with a signature. -/
def signaturePositions (blocks : List (List Nat)) : List Nat :=
  positionsFrom 0 (blocks.map beginsWithSignature)

/-- A buffer of zero bytes but for `e0` at offset 1. -/
def staleBuf : Buffer := fun i => if i = 1 then 0xe0 else 0

/-- An oracle under which only `000.jpg` can be created. -/
def onlyFirst : Nat → Bool := fun i => decide (i = 0)

/-! ## sigcheck: basic facts -/

set_option maxRecDepth 8000

theorem sigcheck_iff_of_three_le (buf : Buffer) (n : Nat) (h : 3 ≤ n) :
    sigcheck buf n = true ↔
      buf 0 = 0xff ∧ buf 1 = 0xd8 ∧ buf 2 = 0xff ∧ 0xe0 ≤ buf 3 ∧ buf 3 ≤ 0xef := by
  have h0 : 0 < n := by omega
  have h1 : 1 < n := by omega
  have h2 : 2 < n := by omega
  simp only [sigcheck, sigLoop, jpg_sig, h0, h1, h2, FOURTH_BYTE_MIN, FOURTH_BYTE_MAX]
  by_cases e0 : buf 0 = 0xff <;> by_cases e1 : buf 1 = 0xd8 <;> by_cases e2 : buf 2 = 0xff <;>
    simp [e0, e1, e2]

/-- The loop of `sigcheck` compares `SIG_SIZE` bytes at most. -/
theorem jpg_sig_length : jpg_sig.length = SIG_SIZE := rfl

/-- The offset the range test of `sigcheck` reads is `min(SIG_SIZE, buf_size)`, so it
lies inside a buffer of `BLOCK_SIZE` bytes. -/
theorem sigLoop_index (buf : Buffer) (n : Nat) :
    ∀ (sig : List Nat) (i j : Nat), sigLoop buf n sig i = some j → i ≤ n →
      j = min (i + sig.length) n := by
  intro sig
  induction sig with
  | nil => intro i j h hi; simp [sigLoop] at h; simp; omega
  | cons x rest ih =>
    intro i j h hi
    unfold sigLoop at h
    split at h
    · split at h
      · cases h
      · have := ih (i + 1) j h (by omega)
        simp only [List.length_cons]
        omega
    · cases h
      simp only [List.length_cons]
      omega

theorem fread_count (buf : Buffer) (blk : List Nat) : (fread buf blk).2 = blk.length := rfl

theorem fread_lt (buf : Buffer) (blk : List Nat) (i : Nat) (h : i < blk.length) :
    (fread buf blk).1 i = blk.getD i 0 := by
  simp [fread, h]

theorem fread_ge (buf : Buffer) (blk : List Nat) (i : Nat) (h : blk.length ≤ i) :
    (fread buf blk).1 i = buf i := by
  simp [fread, Nat.not_lt.mpr h]

theorem map_range_getD (blk : List Nat) (f : Nat → Nat)
    (h : ∀ i, i < blk.length → f i = blk.getD i 0) :
    (List.range blk.length).map f = blk := by
  apply List.ext_getElem
  · simp
  · intro i h1 h2
    simp at h1
    simp [h i h1, List.getElem?_eq_getElem h1]

theorem fread_data (buf : Buffer) (blk : List Nat) :
    (List.range (fread buf blk).2).map (fread buf blk).1 = blk :=
  map_range_getD blk _ (fun i hi => fread_lt buf blk i hi)

/-! ## The directory of recovered files -/

theorem fsOpen_fresh (idx : Nat) (files : List (Nat × List Nat))
    (h : ∀ f ∈ files, f.1 ≠ idx) : fsOpen idx files = files ++ [(idx, [])] := by
  unfold fsOpen
  congr 1
  apply List.filter_eq_self.mpr
  intro f hf
  simpa using h f hf

theorem fsWrite_last (c : Nat) (content data : List Nat) (done : List (Nat × List Nat))
    (h : ∀ f ∈ done, f.1 ≠ c) :
    fsWrite c data (done ++ [(c, content)]) = done ++ [(c, content ++ data)] := by
  unfold fsWrite
  rw [List.map_append]
  congr 1
  · conv_rhs => rw [← List.map_id done]
    apply List.map_congr_left
    intro f hf
    simp [h f hf]
  · simp

/-! ## One iteration of the loop -/

theorem carve_cons (canCreate : Nat → Bool) (s : State) (blk : List Nat)
    (rest : List (List Nat)) (h : blk ≠ []) :
    carve canCreate s (blk :: rest) =
      match loopBody canCreate { s with buffer := (fread s.buffer blk).1 } blk.length with
      | Outcome.running s1 => carve canCreate s1 rest
      | Outcome.exited t s1 => (t, s1) := by
  have hl : blk.length ≠ 0 := by simpa using h
  simp [carve, fread_count, hl]

theorem loopBody_full (canCreate : Nat → Bool) (s : State) (n : Nat)
    (h : NUM_FILE_MAX < s.nfile) :
    loopBody canCreate s n = Outcome.exited Termination.maxFiles
      { s with log := s.log ++ [Event.fcloseImg, Event.fclose s.jpg_fp, Event.freeBuffer] } := by
  have h1 : ¬ s.nfile ≤ NUM_FILE_MAX := by omega
  simp [loopBody, h1, h]

theorem loopBody_plain (canCreate : Nat → Bool) (s : State) (n : Nat)
    (hs : sigcheck s.buffer n = false) (h : s.nfile ≤ NUM_FILE_MAX) :
    loopBody canCreate s n = Outcome.running (writeBlock s n) := by
  have h1 : ¬ NUM_FILE_MAX < s.nfile := by omega
  simp [loopBody, hs, h1]

theorem loopBody_sig (canCreate : Nat → Bool) (s : State) (n : Nat)
    (hs : sigcheck s.buffer n = true) (h : s.nfile ≤ NUM_FILE_MAX)
    (hc : canCreate s.nfile = true) :
    ∃ s1, loopBody canCreate s n = Outcome.running s1 ∧ s1.buffer = s.buffer ∧
      s1.jpg_fp = some s.nfile ∧ s1.nfile = s.nfile + 1 ∧
      s1.files = fsWrite s.nfile ((List.range n).map s.buffer) (fsOpen s.nfile s.files) := by
  have e : (closePrevious s).nfile = s.nfile := by
    unfold closePrevious; split <;> rfl
  have e2 : (closePrevious s).files = s.files := by
    unfold closePrevious; split <;> rfl
  have e3 : (closePrevious s).buffer = s.buffer := by
    unfold closePrevious; split <;> rfl
  simp only [loopBody, hs, h, decide_True, Bool.and_self, if_true, e, hc]
  refine ⟨_, rfl, ?_, ?_, ?_, ?_⟩
  · simp [writeBlock, e3]
  · simp [writeBlock]
  · simp [writeBlock, e]
  · simp [writeBlock, e, e2, e3]

theorem loopBody_sig_fail (canCreate : Nat → Bool) (s : State) (n : Nat)
    (hs : sigcheck s.buffer n = true) (h : s.nfile ≤ NUM_FILE_MAX)
    (hc : canCreate s.nfile = false) :
    ∃ s1, loopBody canCreate s n = Outcome.exited (Termination.createFailed s.nfile) s1 ∧
      s1.files = s.files ∧ s1.nfile = s.nfile + 1 ∧ s1.jpg_fp = none := by
  have e : (closePrevious s).nfile = s.nfile := by
    unfold closePrevious; split <;> rfl
  have e2 : (closePrevious s).files = s.files := by
    unfold closePrevious; split <;> rfl
  simp only [loopBody, hs, h, decide_True, Bool.and_self, if_true, e, hc]
  refine ⟨_, rfl, ?_, ?_, ?_⟩
  · simp [e2]
  · simp [e]
  · simp

theorem writeBlock_idle (s : State) (n : Nat) (h : s.jpg_fp = none) : writeBlock s n = s := by
  simp [writeBlock, h]

/-- A block read while the counter is above `NUM_FILE_MAX` ends the scan. -/
theorem carve_full (canCreate : Nat → Bool) (s : State) (blk : List Nat)
    (rest : List (List Nat)) (hb : blk ≠ []) (h : NUM_FILE_MAX < s.nfile) :
    (carve canCreate s (blk :: rest)).1 = Termination.maxFiles ∧
      (carve canCreate s (blk :: rest)).2.files = s.files ∧
      (carve canCreate s (blk :: rest)).2.nfile = s.nfile ∧
      (carve canCreate s (blk :: rest)).2.jpg_fp = s.jpg_fp := by
  rw [carve_cons canCreate s blk rest hb,
    loopBody_full canCreate { s with buffer := (fread s.buffer blk).1 } _ h]
  simp

/-- A block without signature read while no file is open is dropped. -/
theorem carve_plain_idle (canCreate : Nat → Bool) (s : State) (blk : List Nat)
    (rest : List (List Nat)) (hb : blk ≠ []) (h : s.nfile ≤ NUM_FILE_MAX)
    (hs : sigcheck (fread s.buffer blk).1 blk.length = false) (hj : s.jpg_fp = none) :
    ∃ s1, carve canCreate s (blk :: rest) = carve canCreate s1 rest ∧
      s1.buffer = (fread s.buffer blk).1 ∧ s1.jpg_fp = none ∧ s1.nfile = s.nfile ∧
      s1.files = s.files ∧ s1.log = s.log := by
  rw [carve_cons canCreate s blk rest hb,
    loopBody_plain canCreate { s with buffer := (fread s.buffer blk).1 } _ hs h,
    writeBlock_idle { s with buffer := (fread s.buffer blk).1 } _ hj]
  exact ⟨_, rfl, rfl, hj, rfl, rfl, rfl⟩

/-- A block without signature read while a file is open is appended to it. -/
theorem carve_plain_active (canCreate : Nat → Bool) (s : State) (blk : List Nat)
    (rest : List (List Nat)) (hb : blk ≠ []) (h : s.nfile ≤ NUM_FILE_MAX)
    (hs : sigcheck (fread s.buffer blk).1 blk.length = false)
    (c : Nat) (content : List Nat) (done : List (Nat × List Nat))
    (hj : s.jpg_fp = some c) (hf : s.files = done ++ [(c, content)])
    (hd : ∀ f ∈ done, f.1 ≠ c) :
    ∃ s1, carve canCreate s (blk :: rest) = carve canCreate s1 rest ∧
      s1.buffer = (fread s.buffer blk).1 ∧ s1.jpg_fp = some c ∧ s1.nfile = s.nfile ∧
      s1.files = done ++ [(c, content ++ blk)] := by
  rw [carve_cons canCreate s blk rest hb,
    loopBody_plain canCreate { s with buffer := (fread s.buffer blk).1 } _ hs h]
  refine ⟨_, rfl, ?_, ?_, ?_, ?_⟩
  · simp [writeBlock, hj]
  · simp [writeBlock, hj]
  · simp [writeBlock, hj]
  · have hd2 := fread_data s.buffer blk
    rw [fread_count] at hd2
    simp only [writeBlock, hj, hf, hd2]
    exact fsWrite_last c content blk done hd

/-- A signature block read while the counter is at most `NUM_FILE_MAX` opens the
next file and is written to it. -/
theorem carve_sig (canCreate : Nat → Bool) (s : State) (blk : List Nat)
    (rest : List (List Nat)) (hb : blk ≠ []) (h : s.nfile ≤ NUM_FILE_MAX)
    (hs : sigcheck (fread s.buffer blk).1 blk.length = true)
    (hc : canCreate s.nfile = true) (hd : ∀ f ∈ s.files, f.1 ≠ s.nfile) :
    ∃ s1, carve canCreate s (blk :: rest) = carve canCreate s1 rest ∧
      s1.buffer = (fread s.buffer blk).1 ∧ s1.jpg_fp = some s.nfile ∧
      s1.nfile = s.nfile + 1 ∧ s1.files = s.files ++ [(s.nfile, blk)] := by
  obtain ⟨s1, e, e1, e2, e3, e4⟩ :=
    loopBody_sig canCreate { s with buffer := (fread s.buffer blk).1 } blk.length hs h hc
  refine ⟨s1, ?_, e1, e2, e3, ?_⟩
  · rw [carve_cons canCreate s blk rest hb, e]
  · have hd2 := fread_data s.buffer blk
    rw [fread_count] at hd2
    rw [e4]
    simp only [hd2]
    rw [fsOpen_fresh _ _ hd]
    have := fsWrite_last s.nfile [] blk s.files hd
    simpa using this

/-- A signature block whose file cannot be created ends the scan. -/
theorem carve_sig_fail (canCreate : Nat → Bool) (s : State) (blk : List Nat)
    (rest : List (List Nat)) (hb : blk ≠ []) (h : s.nfile ≤ NUM_FILE_MAX)
    (hs : sigcheck (fread s.buffer blk).1 blk.length = true)
    (hc : canCreate s.nfile = false) :
    (carve canCreate s (blk :: rest)).1 = Termination.createFailed s.nfile ∧
      (carve canCreate s (blk :: rest)).2.files = s.files ∧
      (carve canCreate s (blk :: rest)).2.nfile = s.nfile + 1 := by
  obtain ⟨s1, e, e1, e2, _⟩ :=
    loopBody_sig_fail canCreate { s with buffer := (fread s.buffer blk).1 } blk.length hs h hc
  rw [carve_cons canCreate s blk rest hb, e]
  exact ⟨rfl, e1, e2⟩

theorem carve_nil (canCreate : Nat → Bool) (s : State) :
    (carve canCreate s []).1 = Termination.success ∧ (carve canCreate s []).2.files = s.files ∧
      (carve canCreate s []).2.nfile = s.nfile := by
  have e2 : (closePrevious s).files = s.files := by
    unfold closePrevious; split <;> rfl
  have e : (closePrevious s).nfile = s.nfile := by
    unfold closePrevious; split <;> rfl
  simp [carve, finish, e2, e]

/-! ## The files of a successful scan -/

theorem sigFlags_cons (buf : Buffer) (blk : List Nat) (rest : List (List Nat)) :
    sigFlags buf (blk :: rest) =
      sigcheck (fread buf blk).1 blk.length :: sigFlags (fread buf blk).1 rest := rfl

theorem sigFlags_length (blocks : List (List Nat)) :
    ∀ buf, (sigFlags buf blocks).length = blocks.length := by
  induction blocks with
  | nil => intro buf; rfl
  | cons b bs ih => intro buf; simp [sigFlags_cons, ih]

theorem keys_ne_of_range (files : List (Nat × List Nat)) (n : Nat)
    (h : files.map Prod.fst = List.range n) : ∀ f ∈ files, f.1 ≠ n := by
  intro f hf
  have : f.1 ∈ files.map Prod.fst := List.mem_map_of_mem _ hf
  rw [h, List.mem_range] at this
  omega

theorem carve_active_files (canCreate : Nat → Bool) (blocks : List (List Nat)) :
    ∀ (s : State) (c : Nat) (content : List Nat) (done : List (Nat × List Nat)),
      (∀ b ∈ blocks, b ≠ []) → s.jpg_fp = some c → s.nfile = c + 1 →
      s.files = done ++ [(c, content)] → done.map Prod.fst = List.range c →
      (carve canCreate s blocks).1 = Termination.success →
      (carve canCreate s blocks).2.files =
        done ++ List.enumFrom c (segments (sigFlags s.buffer blocks) blocks content) := by
  induction blocks with
  | nil =>
    intro s c content done _ _ _ hf _ _
    rw [(carve_nil canCreate s).2.1, hf]
    simp [sigFlags, segments]
  | cons blk rest ih =>
    intro s c content done hv hj hn hf hd hok
    have hb : blk ≠ [] := hv blk (List.mem_cons_self _ _)
    have hv2 : ∀ b ∈ rest, b ≠ [] := fun b hb2 => hv b (List.mem_cons_of_mem _ hb2)
    by_cases hfull : NUM_FILE_MAX < s.nfile
    · rw [(carve_full canCreate s blk rest hb hfull).1] at hok
      cases hok
    · have hle : s.nfile ≤ NUM_FILE_MAX := by omega
      rw [sigFlags_cons]
      cases hs : sigcheck (fread s.buffer blk).1 blk.length with
      | false =>
        obtain ⟨s1, e, eb, ej, en, ef⟩ := carve_plain_active canCreate s blk rest hb hle hs
          c content done hj hf (keys_ne_of_range done c hd)
        rw [e] at hok ⊢
        rw [ih s1 c (content ++ blk) done hv2 ej (by omega) ef hd hok, eb]
        simp [segments]
      | true =>
        have hkeys : s.files.map Prod.fst = List.range s.nfile := by
          rw [hf, hn, List.range_succ]; simp [hd]
        cases hc : canCreate s.nfile with
        | false =>
          rw [(carve_sig_fail canCreate s blk rest hb hle hs hc).1] at hok
          cases hok
        | true =>
          obtain ⟨s1, e, eb, ej, en, ef⟩ := carve_sig canCreate s blk rest hb hle hs hc
            (keys_ne_of_range s.files s.nfile hkeys)
          rw [e] at hok ⊢
          rw [hn] at ej en ef
          rw [ih s1 (c + 1) blk (s.files) hv2 ej en ef (by rw [hkeys, hn]) hok, eb, hf]
          simp [segments]

theorem carve_idle_files (canCreate : Nat → Bool) (blocks : List (List Nat)) :
    ∀ (s : State), (∀ b ∈ blocks, b ≠ []) → s.jpg_fp = none → s.nfile = 0 → s.files = [] →
      (carve canCreate s blocks).1 = Termination.success →
      (carve canCreate s blocks).2.files =
        List.enumFrom 0 (segmentsIdle (sigFlags s.buffer blocks) blocks) := by
  induction blocks with
  | nil =>
    intro s _ _ _ hf _
    rw [(carve_nil canCreate s).2.1, hf]
    simp [sigFlags, segmentsIdle]
  | cons blk rest ih =>
    intro s hv hj hn hf hok
    have hb : blk ≠ [] := hv blk (List.mem_cons_self _ _)
    have hv2 : ∀ b ∈ rest, b ≠ [] := fun b hb2 => hv b (List.mem_cons_of_mem _ hb2)
    have hle : s.nfile ≤ NUM_FILE_MAX := by rw [hn]; exact Nat.zero_le _
    rw [sigFlags_cons]
    cases hs : sigcheck (fread s.buffer blk).1 blk.length with
    | false =>
      obtain ⟨s1, e, eb, ej, en, ef, _⟩ := carve_plain_idle canCreate s blk rest hb hle hs hj
      rw [e] at hok ⊢
      rw [ih s1 hv2 ej (by omega) (by rw [ef, hf]) hok, eb]
      simp [segmentsIdle]
    | true =>
      cases hc : canCreate s.nfile with
      | false =>
        rw [(carve_sig_fail canCreate s blk rest hb hle hs hc).1] at hok
        cases hok
      | true =>
        obtain ⟨s1, e, eb, ej, en, ef⟩ := carve_sig canCreate s blk rest hb hle hs hc
          (by rw [hf]; simp)
        rw [e] at hok ⊢
        rw [hn] at ej en
        rw [hn, hf] at ef
        have := carve_active_files canCreate rest s1 0 blk [] hv2 ej en (by simpa using ef)
          rfl hok
        rw [this, eb]
        simp [segmentsIdle]

/-! ## Segments and positions -/

theorem positionsFrom_succ (fs : List Bool) :
    ∀ off, positionsFrom (off + 1) fs = (positionsFrom off fs).map (· + 1) := by
  induction fs with
  | nil => intro off; rfl
  | cons f fs ih =>
    intro off
    cases f <;> simp [positionsFrom, ih]

theorem positionsFrom_true (fs : List Bool) :
    positionsFrom 0 (true :: fs) = 0 :: (positionsFrom 0 fs).map (· + 1) := by
  simp [positionsFrom, positionsFrom_succ]

theorem positionsFrom_false (fs : List Bool) :
    positionsFrom 0 (false :: fs) = (positionsFrom 0 fs).map (· + 1) := by
  simp [positionsFrom, positionsFrom_succ]

/-- The positions listed are exactly those of the `true` flags. -/
theorem mem_positionsFrom (fs : List Bool) :
    ∀ (off p : Nat), p ∈ positionsFrom off fs ↔ off ≤ p ∧ fs[p - off]? = some true := by
  induction fs with
  | nil => intro off p; simp [positionsFrom]
  | cons f fs ih =>
    intro off p
    by_cases hp : p = off
    · subst hp
      cases f <;> simp [positionsFrom, ih]
    · by_cases hlt : off ≤ p
      · have e : p - off = (p - (off + 1)) + 1 := by omega
        cases f <;> simp [positionsFrom, ih, e, hp] <;> omega
      · cases f <;> simp [positionsFrom, ih, hp] <;> omega

/-- The positions are listed in increasing order. -/
theorem positionsFrom_sorted (fs : List Bool) :
    ∀ (off : Nat), (positionsFrom off fs).Pairwise (· < ·) := by
  induction fs with
  | nil => intro off; simp [positionsFrom]
  | cons f fs ih =>
    intro off
    cases f
    · simpa [positionsFrom] using ih (off + 1)
    · simp only [positionsFrom, if_true, List.pairwise_cons]
      refine ⟨?_, ih (off + 1)⟩
      intro q hq
      have := ((mem_positionsFrom fs (off + 1) q).mp hq).1
      omega

theorem slice_succ (b : List Nat) (bs : List (List Nat)) (p q : Nat) :
    slice (b :: bs) (p + 1) (q + 1) = slice bs p q := by
  simp [slice]

theorem slice_zero_succ (b : List Nat) (bs : List (List Nat)) (q : Nat) :
    slice (b :: bs) 0 (q + 1) = b ++ slice bs 0 q := by
  simp [slice]

theorem headD_map_succ (ps : List Nat) (d : Nat) :
    (ps.map (· + 1)).headD (d + 1) = ps.headD d + 1 := by
  cases ps <;> simp

theorem slices_shift (b : List Nat) (bs : List (List Nat)) (ps : List Nat) :
    slices (b :: bs) (ps.map (· + 1)) = slices bs ps := by
  induction ps with
  | nil => rfl
  | cons p qs ih =>
    simp only [List.map_cons, slices, List.length_cons, headD_map_succ, slice_succ, ih]

theorem segments_eq (fs : List Bool) :
    ∀ (bs : List (List Nat)) (cur : List Nat), fs.length = bs.length →
      segments fs bs cur =
        (cur ++ slice bs 0 ((positionsFrom 0 fs).headD bs.length)) ::
          slices bs (positionsFrom 0 fs) := by
  induction fs with
  | nil =>
    intro bs cur h
    cases bs with
    | nil => simp [segments, positionsFrom, slices, slice]
    | cons b bs => simp at h
  | cons f fs ih =>
    intro bs cur h
    cases bs with
    | nil => simp at h
    | cons b bs =>
      have h2 : fs.length = bs.length := by simpa using h
      cases f with
      | true =>
        rw [positionsFrom_true]
        simp only [segments, ih bs b h2, slices, List.headD_cons, List.length_cons,
          headD_map_succ, slice_zero_succ, slices_shift]
        simp [slice]
      | false =>
        rw [positionsFrom_false]
        simp only [segments, ih bs (cur ++ b) h2, List.length_cons, headD_map_succ,
          slice_zero_succ, slices_shift]
        simp

theorem segmentsIdle_eq (fs : List Bool) :
    ∀ (bs : List (List Nat)), fs.length = bs.length →
      segmentsIdle fs bs = slices bs (positionsFrom 0 fs) := by
  induction fs with
  | nil =>
    intro bs h
    cases bs with
    | nil => simp [segmentsIdle, positionsFrom, slices]
    | cons b bs => simp at h
  | cons f fs ih =>
    intro bs h
    cases bs with
    | nil => simp at h
    | cons b bs =>
      have h2 : fs.length = bs.length := by simpa using h
      cases f with
      | true =>
        rw [positionsFrom_true]
        simp only [segmentsIdle, segments_eq fs bs b h2, slices, List.length_cons,
          headD_map_succ, slice_zero_succ, slices_shift]
      | false =>
        rw [positionsFrom_false]
        simp only [segmentsIdle, ih bs h2, slices_shift]

theorem slices_length (bs : List (List Nat)) (ps : List Nat) :
    (slices bs ps).length = ps.length := by
  induction ps with
  | nil => rfl
  | cons p qs ih => simp [slices, ih]

theorem slices_getElem? (bs : List (List Nat)) (ps : List Nat) :
    ∀ (i : Nat) (h : i < ps.length),
      (slices bs ps)[i]? = some (slice bs (ps.get ⟨i, h⟩) (ps.getD (i + 1) bs.length)) := by
  induction ps with
  | nil => intro i h; simp at h
  | cons p qs ih =>
    intro i h
    cases i with
    | zero =>
      cases qs <;> simp [slices]
    | succ j =>
      have hj : j < qs.length := by simpa using h
      simp [slices, ih j hj]

theorem segments_flatten (fs : List Bool) :
    ∀ (bs : List (List Nat)) (cur : List Nat), fs.length = bs.length →
      (segments fs bs cur).flatten = cur ++ bs.flatten := by
  induction fs with
  | nil =>
    intro bs cur h
    cases bs with
    | nil => simp [segments]
    | cons b bs => simp at h
  | cons f fs ih =>
    intro bs cur h
    cases bs with
    | nil => simp at h
    | cons b bs =>
      have h2 : fs.length = bs.length := by simpa using h
      cases f <;> simp [segments, ih _ _ h2]

theorem segmentsIdle_flatten (fs : List Bool) :
    ∀ (bs : List (List Nat)), fs.length = bs.length →
      (segmentsIdle fs bs).flatten =
        (bs.drop ((positionsFrom 0 fs).headD bs.length)).flatten := by
  induction fs with
  | nil =>
    intro bs h
    cases bs with
    | nil => simp [segmentsIdle]
    | cons b bs => simp at h
  | cons f fs ih =>
    intro bs h
    cases bs with
    | nil => simp at h
    | cons b bs =>
      have h2 : fs.length = bs.length := by simpa using h
      cases f with
      | true => simp [segmentsIdle, positionsFrom_true, segments_flatten fs bs b h2]
      | false =>
        rw [positionsFrom_false]
        simp [segmentsIdle, ih bs h2, headD_map_succ]

/-! ## Counting files -/

theorem fsWrite_keys (idx : Nat) (data : List Nat) (files : List (Nat × List Nat)) :
    (fsWrite idx data files).map Prod.fst = files.map Prod.fst := by
  unfold fsWrite
  rw [List.map_map]
  apply List.map_congr_left
  intro f _
  by_cases h : f.1 = idx <;> simp [h]

theorem writeBlock_facts (s : State) (n : Nat) :
    (writeBlock s n).buffer = s.buffer ∧ (writeBlock s n).jpg_fp = s.jpg_fp ∧
      (writeBlock s n).nfile = s.nfile ∧
      (writeBlock s n).files.map Prod.fst = s.files.map Prod.fst := by
  unfold writeBlock
  split
  · exact ⟨rfl, rfl, rfl, fsWrite_keys _ _ _⟩
  · exact ⟨rfl, rfl, rfl, rfl⟩

/-- A block without signature read while the counter is at most `NUM_FILE_MAX`
changes neither the counter, nor the handle, nor the set of files. -/
theorem carve_plain_any (canCreate : Nat → Bool) (s : State) (blk : List Nat)
    (rest : List (List Nat)) (hb : blk ≠ []) (h : s.nfile ≤ NUM_FILE_MAX)
    (hs : sigcheck (fread s.buffer blk).1 blk.length = false) :
    ∃ s1, carve canCreate s (blk :: rest) = carve canCreate s1 rest ∧
      s1.buffer = (fread s.buffer blk).1 ∧ s1.jpg_fp = s.jpg_fp ∧ s1.nfile = s.nfile ∧
      s1.files.map Prod.fst = s.files.map Prod.fst := by
  rw [carve_cons canCreate s blk rest hb,
    loopBody_plain canCreate { s with buffer := (fread s.buffer blk).1 } _ hs h]
  obtain ⟨e1, e2, e3, e4⟩ :=
    writeBlock_facts { s with buffer := (fread s.buffer blk).1 } blk.length
  exact ⟨_, rfl, e1, e2, e3, e4⟩

theorem carve_count (canCreate : Nat → Bool) (hc : ∀ i, canCreate i = true)
    (blocks : List (List Nat)) :
    ∀ (s : State), (∀ b ∈ blocks, b ≠ []) → s.files.map Prod.fst = List.range s.nfile →
      s.nfile ≤ NUM_FILE_MAX + 1 →
      (carve canCreate s blocks).2.files.map Prod.fst =
          List.range (min (s.nfile + (sigFlags s.buffer blocks).count true) (NUM_FILE_MAX + 1)) ∧
        (carve canCreate s blocks).2.nfile =
          min (s.nfile + (sigFlags s.buffer blocks).count true) (NUM_FILE_MAX + 1) ∧
        ((carve canCreate s blocks).1 = Termination.maxFiles ↔
          ∃ j, j < blocks.length ∧
            NUM_FILE_MAX + 1 ≤ s.nfile + ((sigFlags s.buffer blocks).take j).count true) ∧
        ((carve canCreate s blocks).1 = Termination.success ∨
          (carve canCreate s blocks).1 = Termination.maxFiles) := by
  induction blocks with
  | nil =>
    intro s _ hk hn
    obtain ⟨e1, e2, e3⟩ := carve_nil canCreate s
    have hm : min (s.nfile + 0) (NUM_FILE_MAX + 1) = s.nfile := by omega
    refine ⟨?_, ?_, ?_, Or.inl e1⟩
    · simp only [sigFlags, List.count_nil, hm, e2, hk]
    · simp only [sigFlags, List.count_nil, hm, e3]
    · rw [e1]
      simp
  | cons blk rest ih =>
    intro s hv hk hn
    have hb : blk ≠ [] := hv blk (List.mem_cons_self _ _)
    have hv2 : ∀ b ∈ rest, b ≠ [] := fun b hb2 => hv b (List.mem_cons_of_mem _ hb2)
    by_cases hfull : NUM_FILE_MAX < s.nfile
    · obtain ⟨e1, e2, e3, _⟩ := carve_full canCreate s blk rest hb hfull
      have hm : ∀ k, min (s.nfile + k) (NUM_FILE_MAX + 1) = s.nfile := by intro k; omega
      refine ⟨?_, ?_, ?_, Or.inr e1⟩
      · rw [e2, hm, hk]
      · rw [e3, hm]
      · simp only [e1, true_iff]
        exact ⟨0, by simp, by simp; omega⟩
    · have hle : s.nfile ≤ NUM_FILE_MAX := by omega
      rw [sigFlags_cons]
      cases hs : sigcheck (fread s.buffer blk).1 blk.length with
      | false =>
        obtain ⟨s1, e, eb, _, en, ef⟩ := carve_plain_any canCreate s blk rest hb hle hs
        obtain ⟨i1, i2, i3, i4⟩ := ih s1 hv2 (by rw [ef, en, hk]) (by omega)
        rw [e]
        rw [eb, en] at i1 i2 i3
        refine ⟨?_, ?_, ?_, i4⟩
        · simpa using i1
        · simpa using i2
        · rw [i3]
          constructor
          · rintro ⟨j, hj, hj2⟩
            exact ⟨j + 1, by simpa using hj, by simpa using hj2⟩
          · rintro ⟨j, hj, hj2⟩
            cases j with
            | zero => simp at hj2; omega
            | succ j => exact ⟨j, by simpa using hj, by simpa using hj2⟩
      | true =>
        obtain ⟨s1, e, eb, _, en, ef⟩ := carve_sig canCreate s blk rest hb hle hs (hc _)
          (keys_ne_of_range s.files s.nfile hk)
        obtain ⟨i1, i2, i3, i4⟩ := ih s1 hv2
          (by rw [ef, en, List.range_succ]; simp [hk]) (by omega)
        rw [e]
        rw [eb, en] at i1 i2 i3
        have hcnt : ∀ k, s.nfile + 1 + k = s.nfile + (k + 1) := by intro k; omega
        refine ⟨?_, ?_, ?_, i4⟩
        · simpa [hcnt] using i1
        · simpa [hcnt] using i2
        · rw [i3]
          constructor
          · rintro ⟨j, hj, hj2⟩
            refine ⟨j + 1, by simpa using hj, ?_⟩
            simp only [List.take_succ_cons, List.count_cons_self]
            omega
          · rintro ⟨j, hj, hj2⟩
            cases j with
            | zero => simp at hj2; omega
            | succ j =>
              refine ⟨j, by simpa using hj, ?_⟩
              simp only [List.take_succ_cons, List.count_cons_self] at hj2
              omega

theorem nonempty_of_valid (blocks : List (List Nat)) (hv : ValidBlocks blocks) :
    ∀ b ∈ blocks, b ≠ [] := by
  intro b hb e
  have := (hv b hb).1
  rw [e] at this
  simp at this

theorem count_take_le (l : List Bool) (j : Nat) : (l.take j).count true ≤ l.count true :=
  (List.take_sublist j l).count_le true

theorem count_dropLast (l : List Bool) : l.count true ≤ (l.take (l.length - 1)).count true + 1 := by
  induction l with
  | nil => simp
  | cons a l ih =>
    cases l with
    | nil => cases a <;> simp
    | cons b l =>
      simp only [List.length_cons, Nat.add_sub_cancel, List.take_succ_cons] at ih ⊢
      simp only [List.count_cons] at ih ⊢
      omega

theorem carve_idle_plain (canCreate : Nat → Bool) (blocks : List (List Nat)) :
    ∀ (s : State), (∀ b ∈ blocks, b ≠ []) → s.jpg_fp = none → s.nfile ≤ NUM_FILE_MAX →
      (∀ f ∈ sigFlags s.buffer blocks, f = false) →
      (carve canCreate s blocks).1 = Termination.success ∧
        (carve canCreate s blocks).2.files = s.files ∧
        (carve canCreate s blocks).2.nfile = s.nfile ∧
        (carve canCreate s blocks).2.log = s.log ++ [Event.fcloseImg, Event.freeBuffer] := by
  induction blocks with
  | nil =>
    intro s _ hj _ _
    simp [carve, finish, closePrevious, hj]
  | cons blk rest ih =>
    intro s hv hj hn hno
    have hb : blk ≠ [] := hv blk (List.mem_cons_self _ _)
    have hv2 : ∀ b ∈ rest, b ≠ [] := fun b hb2 => hv b (List.mem_cons_of_mem _ hb2)
    rw [sigFlags_cons] at hno
    have hs := hno _ (List.mem_cons_self _ _)
    obtain ⟨s1, e, eb, ej, en, ef, el⟩ := carve_plain_idle canCreate s blk rest hb hn hs hj
    have := ih s1 hv2 ej (by omega)
      (by rw [eb]; exact fun f hf => hno f (List.mem_cons_of_mem _ hf))
    rw [e, ← ef, ← en, ← el]
    exact this

/-! ## Claims -/

/-- C1 (code defect). The claim lets `sigcheck(buf, n)` be true only when bytes 0..2
are `ff d8 ff` and byte 3 is in `[e0, ef]`, for every `1 ≤ n ≤ 512`.  On the image
of 513 bytes whose first block is `00 e0 00 ...` and whose last block is the single
byte `ff`, the buffer holds `ff e0 00 00` when the last block is tested with `n = 1`:
the loop compares one byte, the range test then reads offset 1, a byte left from
the block before, and `sigcheck` returns true; the scan creates `000.jpg` from a
block that holds no signature. -/
theorem C1_sigcheck_accepts_stale_byte :
    FileBlocks [staleBlock, [0xff]] ∧
      (fread (fread zeroBuf staleBlock).1 [0xff]).2 = 1 ∧
      (fread (fread zeroBuf staleBlock).1 [0xff]).1 0 = 0xff ∧
      (fread (fread zeroBuf staleBlock).1 [0xff]).1 1 = 0xe0 ∧
      (fread (fread zeroBuf staleBlock).1 [0xff]).1 2 = 0 ∧
      (fread (fread zeroBuf staleBlock).1 [0xff]).1 3 = 0 ∧
      sigcheck (fread (fread zeroBuf staleBlock).1 [0xff]).1 1 = true ∧
      (carve (fun _ => true) (init zeroBuf) [staleBlock, [0xff]]).2.files = [(0, [0xff])] := by
  refine ⟨?_, ?_, ?_, ?_, ?_, ?_, ?_, ?_⟩
  · simp [FileBlocks, staleBlock, BLOCK_SIZE]
  · rfl
  · decide
  · decide
  · decide
  · decide
  · decide
  · decide

/-- The files of a successful scan, in terms of the answers of `sigcheck`.  On every
block sequence whose scan ends with success, with `p_0 < p_1 < ...`
the positions of the blocks on which `sigcheck` returns true: there are as many
files as positions, file `i` is numbered `i` and holds exactly the blocks from
`p_i` up to, not including, `p_(i+1)` (the end of input for the last file), and
the files concatenated in order are the input from block `p_0` on. -/
theorem files_partition_at_flagged_blocks (canCreate : Nat → Bool) (buf : Buffer)
    (blocks : List (List Nat)) (hv : ValidBlocks blocks)
    (hok : (carve canCreate (init buf) blocks).1 = Termination.success) :
    (carve canCreate (init buf) blocks).2.files.length = (sigPositions buf blocks).length ∧
    (∀ (i : Nat) (h : i < (sigPositions buf blocks).length),
      (carve canCreate (init buf) blocks).2.files[i]? =
        some (i, slice blocks ((sigPositions buf blocks).get ⟨i, h⟩)
          ((sigPositions buf blocks).getD (i + 1) blocks.length))) ∧
    ((carve canCreate (init buf) blocks).2.files.map Prod.snd).flatten =
      (blocks.drop ((sigPositions buf blocks).headD blocks.length)).flatten := by
  have hf := carve_idle_files canCreate blocks (init buf) (nonempty_of_valid blocks hv)
    rfl rfl rfl hok
  have hl := sigFlags_length blocks buf
  have hb : (init buf).buffer = buf := rfl
  rw [hb] at hf
  refine ⟨?_, ?_, ?_⟩
  · rw [hf, List.enumFrom_length, segmentsIdle_eq _ _ hl, slices_length]
    rfl
  · intro i h
    rw [hf, segmentsIdle_eq _ _ hl, List.getElem?_enumFrom]
    have := slices_getElem? blocks (positionsFrom 0 (sigFlags buf blocks)) i h
    rw [this]
    simp [sigPositions]
  · rw [hf, List.enumFrom_map_snd, segmentsIdle_flatten _ _ hl]
    rfl

/-- The partition at `demoBlocks` with a buffer of zeros. -/
theorem files_partition_at_flagged_blocks_demo :
    ValidBlocks demoBlocks ∧
    (carve (fun _ => true) (init zeroBuf) demoBlocks).1 = Termination.success ∧
    ((carve (fun _ => true) (init zeroBuf) demoBlocks).2.files.length
        = (sigPositions zeroBuf demoBlocks).length ∧
      (∀ (i : Nat) (h : i < (sigPositions zeroBuf demoBlocks).length),
        (carve (fun _ => true) (init zeroBuf) demoBlocks).2.files[i]? =
          some (i, slice demoBlocks ((sigPositions zeroBuf demoBlocks).get ⟨i, h⟩)
            ((sigPositions zeroBuf demoBlocks).getD (i + 1) demoBlocks.length))) ∧
      ((carve (fun _ => true) (init zeroBuf) demoBlocks).2.files.map Prod.snd).flatten =
        (demoBlocks.drop ((sigPositions zeroBuf demoBlocks).headD demoBlocks.length)).flatten) :=
  ⟨by decide, by decide,
    files_partition_at_flagged_blocks (fun _ => true) zeroBuf demoBlocks (by decide) (by decide)⟩

/-- C3. When no file creation fails, the number of files created is `min(k, 1000)`,
`k` being the number of blocks on which `sigcheck` returns true; and when `k`
exceeds 1000 the scan ends with the failure status (the file-count error). -/
theorem C3_file_count_is_min (canCreate : Nat → Bool) (hc : ∀ i, canCreate i = true)
    (buf : Buffer) (blocks : List (List Nat)) (hv : ValidBlocks blocks) :
    (carve canCreate (init buf) blocks).2.files.length =
        min ((sigFlags buf blocks).count true) 1000 ∧
      (1000 < (sigFlags buf blocks).count true →
        (carve canCreate (init buf) blocks).1 = Termination.maxFiles ∧
        (carve canCreate (init buf) blocks).1.status = EXIT_FAILURE) := by
  obtain ⟨h1, _, h3, _⟩ := carve_count canCreate hc blocks (init buf)
    (nonempty_of_valid blocks hv) rfl (by simp [init])
  have hb : (init buf).buffer = buf := rfl
  have hn : (init buf).nfile = 0 := rfl
  have hmax : NUM_FILE_MAX + 1 = 1000 := rfl
  rw [hb, hn, hmax] at h1 h3
  simp only [zero_add] at h1 h3
  constructor
  · have := congrArg List.length h1
    simpa using this
  · intro hk
    have hm : (carve canCreate (init buf) blocks).1 = Termination.maxFiles := by
      rw [h3]
      have hlen := sigFlags_length blocks buf
      have hpos : 0 < blocks.length := by
        rw [← hlen]
        have := List.count_le_length true (sigFlags buf blocks)
        omega
      refine ⟨blocks.length - 1, by omega, ?_⟩
      have := count_dropLast (sigFlags buf blocks)
      rw [hlen] at this
      omega
    exact ⟨hm, by rw [hm]; rfl⟩

/-- C3, witness: `demoBlocks`, two signature blocks, two files. -/
theorem C3_file_count_is_min_witness :
    (∀ i, (fun _ => true : Nat → Bool) i = true) ∧ ValidBlocks demoBlocks ∧
    ((carve (fun _ => true) (init zeroBuf) demoBlocks).2.files.length =
        min ((sigFlags zeroBuf demoBlocks).count true) 1000 ∧
      (1000 < (sigFlags zeroBuf demoBlocks).count true →
        (carve (fun _ => true) (init zeroBuf) demoBlocks).1 = Termination.maxFiles ∧
        (carve (fun _ => true) (init zeroBuf) demoBlocks).1.status = EXIT_FAILURE)) :=
  ⟨fun _ => rfl, by decide,
    C3_file_count_is_min (fun _ => true) (fun _ => rfl) zeroBuf demoBlocks (by decide)⟩

/-- C5. When `sigcheck` returns true on no block, the scan ends with success
(status 0), no file exists at the end, and the only library calls after the reads
are the closing of the input and the freeing of the buffer: nothing is opened and
nothing is written. -/
theorem C5_no_signature_no_file (canCreate : Nat → Bool) (buf : Buffer)
    (blocks : List (List Nat)) (hv : ValidBlocks blocks)
    (hno : ∀ f ∈ sigFlags buf blocks, f = false) :
    (carve canCreate (init buf) blocks).1 = Termination.success ∧
      (carve canCreate (init buf) blocks).1.status = 0 ∧
      (carve canCreate (init buf) blocks).2.files = [] ∧
      (carve canCreate (init buf) blocks).2.log = [Event.fcloseImg, Event.freeBuffer] := by
  obtain ⟨h1, h2, _, h4⟩ := carve_idle_plain canCreate blocks (init buf)
    (nonempty_of_valid blocks hv) rfl (by simp [init]) hno
  exact ⟨h1, by rw [h1]; rfl, h2, h4⟩

/-- C5, witness: a full block of zeros followed by a block of two bytes. -/
theorem C5_no_signature_no_file_witness :
    ValidBlocks [plainBlock, [1, 2]] ∧
    (∀ f ∈ sigFlags zeroBuf [plainBlock, [1, 2]], f = false) ∧
    ((carve (fun _ => true) (init zeroBuf) [plainBlock, [1, 2]]).1 = Termination.success ∧
      (carve (fun _ => true) (init zeroBuf) [plainBlock, [1, 2]]).1.status = 0 ∧
      (carve (fun _ => true) (init zeroBuf) [plainBlock, [1, 2]]).2.files = [] ∧
      (carve (fun _ => true) (init zeroBuf) [plainBlock, [1, 2]]).2.log =
        [Event.fcloseImg, Event.freeBuffer]) :=
  ⟨by decide, by decide,
    C5_no_signature_no_file (fun _ => true) zeroBuf [plainBlock, [1, 2]] (by decide)
      (by decide)⟩

/-- C10. On a block of at least 4 valid bytes `a b c d ...` `sigcheck` returns false
as soon as one of the first three bytes differs from `ff d8 ff`; when the three
bytes match it returns false for a fourth byte `df` or `f0` and true for `e0` or
`ef`, whatever the buffer held before and whatever follows the fourth byte. -/
theorem C10_sigcheck_boundaries (buf : Buffer) (a b c d : Nat) (tail : List Nat)
    (hne : a ≠ 0xff ∨ b ≠ 0xd8 ∨ c ≠ 0xff) :
    sigcheck (fread buf (a :: b :: c :: d :: tail)).1 (a :: b :: c :: d :: tail).length = false ∧
    sigcheck (fread buf (0xff :: 0xd8 :: 0xff :: 0xdf :: tail)).1
      (0xff :: 0xd8 :: 0xff :: 0xdf :: tail).length = false ∧
    sigcheck (fread buf (0xff :: 0xd8 :: 0xff :: 0xf0 :: tail)).1
      (0xff :: 0xd8 :: 0xff :: 0xf0 :: tail).length = false ∧
    sigcheck (fread buf (0xff :: 0xd8 :: 0xff :: 0xe0 :: tail)).1
      (0xff :: 0xd8 :: 0xff :: 0xe0 :: tail).length = true ∧
    sigcheck (fread buf (0xff :: 0xd8 :: 0xff :: 0xef :: tail)).1
      (0xff :: 0xd8 :: 0xff :: 0xef :: tail).length = true := by
  have key : ∀ (w x y z : Nat),
      (sigcheck (fread buf (w :: x :: y :: z :: tail)).1 (w :: x :: y :: z :: tail).length = true ↔
        w = 0xff ∧ x = 0xd8 ∧ y = 0xff ∧ 0xe0 ≤ z ∧ z ≤ 0xef) := by
    intro w x y z
    rw [sigcheck_iff_of_three_le _ _ (by simp)]
    simp [fread]
  have neg : ∀ (w x y z : Nat), ¬ (w = 0xff ∧ x = 0xd8 ∧ y = 0xff ∧ 0xe0 ≤ z ∧ z ≤ 0xef) →
      sigcheck (fread buf (w :: x :: y :: z :: tail)).1 (w :: x :: y :: z :: tail).length
        = false := by
    intro w x y z hn
    cases hs : sigcheck (fread buf (w :: x :: y :: z :: tail)).1
      (w :: x :: y :: z :: tail).length with
    | false => rfl
    | true => exact absurd ((key w x y z).mp hs) hn
  refine ⟨?_, ?_, ?_, ?_, ?_⟩
  · apply neg
    rintro ⟨h1, h2, h3, _⟩
    rcases hne with hne | hne | hne
    · exact hne h1
    · exact hne h2
    · exact hne h3
  · apply neg; omega
  · apply neg; omega
  · exact (key _ _ _ _).mpr ⟨rfl, rfl, rfl, by omega, by omega⟩
  · exact (key _ _ _ _).mpr ⟨rfl, rfl, rfl, by omega, by omega⟩

/-- C10, witness: the block `fe d8 ff e0`, whose first byte differs. -/
theorem C10_sigcheck_boundaries_witness :
    ((0xfe : Nat) ≠ 0xff ∨ (0xd8 : Nat) ≠ 0xd8 ∨ (0xff : Nat) ≠ 0xff) ∧
    (sigcheck (fread zeroBuf (0xfe :: 0xd8 :: 0xff :: 0xe0 :: [])).1
        (0xfe :: 0xd8 :: 0xff :: 0xe0 :: []).length = false ∧
    sigcheck (fread zeroBuf (0xff :: 0xd8 :: 0xff :: 0xdf :: [])).1
      (0xff :: 0xd8 :: 0xff :: 0xdf :: []).length = false ∧
    sigcheck (fread zeroBuf (0xff :: 0xd8 :: 0xff :: 0xf0 :: [])).1
      (0xff :: 0xd8 :: 0xff :: 0xf0 :: []).length = false ∧
    sigcheck (fread zeroBuf (0xff :: 0xd8 :: 0xff :: 0xe0 :: [])).1
      (0xff :: 0xd8 :: 0xff :: 0xe0 :: []).length = true ∧
    sigcheck (fread zeroBuf (0xff :: 0xd8 :: 0xff :: 0xef :: [])).1
      (0xff :: 0xd8 :: 0xff :: 0xef :: []).length = true) :=
  ⟨Or.inl (by decide),
    C10_sigcheck_boundaries zeroBuf 0xfe 0xd8 0xff 0xe0 [] (Or.inl (by decide))⟩

/-! ## The loop and the code after it -/

theorem finish_facts (s : State) :
    (finish s).1 = Termination.success ∧ (finish s).2.files = s.files ∧
      (finish s).2.nfile = s.nfile ∧ (finish s).2.jpg_fp = s.jpg_fp := by
  unfold finish closePrevious
  split <;> exact ⟨rfl, rfl, rfl, rfl⟩

theorem carve_eq_runLoop (canCreate : Nat → Bool) (blocks : List (List Nat)) :
    ∀ (s : State), carve canCreate s blocks =
      match runLoop canCreate s blocks with
      | Outcome.running s1 => finish s1
      | Outcome.exited t s1 => (t, s1) := by
  induction blocks with
  | nil => intro s; rfl
  | cons blk rest ih =>
    intro s
    simp only [carve, runLoop]
    split
    · rfl
    · split <;> rename_i heq
      · rw [ih]
      · rfl

theorem loopBody_exit_ne_success (canCreate : Nat → Bool) (s s1 : State) (n : Nat)
    (t : Termination) (h : loopBody canCreate s n = Outcome.exited t s1) :
    t ≠ Termination.success := by
  by_cases hfull : NUM_FILE_MAX < s.nfile
  · rw [loopBody_full canCreate s n hfull] at h
    cases h
    simp
  · have hle : s.nfile ≤ NUM_FILE_MAX := by omega
    cases hs : sigcheck s.buffer n with
    | false =>
      rw [loopBody_plain canCreate s n hs hle] at h
      cases h
    | true =>
      cases hc : canCreate s.nfile with
      | false =>
        obtain ⟨s2, e, _⟩ := loopBody_sig_fail canCreate s n hs hle hc
        rw [e] at h
        cases h
        simp
      | true =>
        obtain ⟨s2, e, _⟩ := loopBody_sig canCreate s n hs hle hc
        rw [e] at h
        cases h

theorem runLoop_exit_ne_success (canCreate : Nat → Bool) (blocks : List (List Nat)) :
    ∀ (s s1 : State) (t : Termination), runLoop canCreate s blocks = Outcome.exited t s1 →
      t ≠ Termination.success := by
  induction blocks with
  | nil => intro s s1 t h; cases h
  | cons blk rest ih =>
    intro s s1 t h
    simp only [runLoop] at h
    split at h
    · cases h
    · split at h <;> rename_i heq
      · exact ih _ _ _ h
      · cases h
        exact loopBody_exit_ne_success _ _ _ _ _ heq

theorem runLoop_append (canCreate : Nat → Bool) (front back : List (List Nat)) :
    ∀ (s : State), (∀ b ∈ front, b ≠ []) →
      runLoop canCreate s (front ++ back) =
        match runLoop canCreate s front with
        | Outcome.running s1 => runLoop canCreate s1 back
        | Outcome.exited t s1 => Outcome.exited t s1 := by
  induction front with
  | nil => intro s _; rfl
  | cons blk rest ih =>
    intro s hv
    have hb : blk ≠ [] := hv blk (List.mem_cons_self _ _)
    have hv2 : ∀ b ∈ rest, b ≠ [] := fun b hb2 => hv b (List.mem_cons_of_mem _ hb2)
    have hl : (fread s.buffer blk).2 ≠ 0 := by simpa [fread_count] using hb
    simp only [List.cons_append, runLoop, hl, if_false]
    split
    · exact ih _ hv2
    · rfl

theorem runLoop_of_success (canCreate : Nat → Bool) (blocks : List (List Nat)) (s : State)
    (h : (carve canCreate s blocks).1 = Termination.success) :
    ∃ s1, runLoop canCreate s blocks = Outcome.running s1 ∧
      (carve canCreate s blocks).2.files = s1.files ∧
      (carve canCreate s blocks).2.nfile = s1.nfile ∧
      (carve canCreate s blocks).2.jpg_fp = s1.jpg_fp := by
  rw [carve_eq_runLoop] at h ⊢
  cases hr : runLoop canCreate s blocks with
  | running s1 =>
    obtain ⟨_, e2, e3, e4⟩ := finish_facts s1
    exact ⟨s1, rfl, e2, e3, e4⟩
  | exited t s1 =>
    rw [hr] at h
    exact absurd h (runLoop_exit_ne_success canCreate blocks s s1 t hr)

/-- A block that follows a scan which has used up all the numbers ends the scan
with the file-count error and changes no file. -/
theorem carve_append_full (canCreate : Nat → Bool) (front rest : List (List Nat))
    (x : List Nat) (s : State) (hv : ∀ b ∈ front, b ≠ []) (hx : x ≠ [])
    (h : (carve canCreate s front).1 = Termination.success)
    (hn : NUM_FILE_MAX < (carve canCreate s front).2.nfile) :
    (carve canCreate s (front ++ x :: rest)).1 = Termination.maxFiles ∧
      (carve canCreate s (front ++ x :: rest)).2.files = (carve canCreate s front).2.files ∧
      (carve canCreate s (front ++ x :: rest)).2.nfile = (carve canCreate s front).2.nfile ∧
      (carve canCreate s (front ++ x :: rest)).2.jpg_fp =
        (carve canCreate s front).2.jpg_fp := by
  obtain ⟨s1, e1, e2, e3, e4⟩ := runLoop_of_success canCreate front s h
  rw [e2, e3, e4]
  rw [e3] at hn
  have hc := carve_eq_runLoop canCreate (x :: rest) s1
  rw [carve_eq_runLoop, runLoop_append canCreate front (x :: rest) s hv, e1]
  simp only []
  rw [← hc]
  exact carve_full canCreate s1 x rest hx hn

/-! ## Blocks of four bytes or more, runs of equal flags -/

theorem sigcheck_fread_long (buf : Buffer) (blk : List Nat) (h : 4 ≤ blk.length) :
    sigcheck (fread buf blk).1 blk.length = sigcheck (fread zeroBuf blk).1 blk.length := by
  rw [Bool.eq_iff_iff, sigcheck_iff_of_three_le _ _ (by omega),
    sigcheck_iff_of_three_le _ _ (by omega)]
  rw [fread_lt buf blk 0 (by omega), fread_lt buf blk 1 (by omega),
    fread_lt buf blk 2 (by omega), fread_lt buf blk 3 (by omega),
    fread_lt zeroBuf blk 0 (by omega), fread_lt zeroBuf blk 1 (by omega),
    fread_lt zeroBuf blk 2 (by omega), fread_lt zeroBuf blk 3 (by omega)]

theorem sigFlags_long (blocks : List (List Nat)) (h : ∀ b ∈ blocks, 4 ≤ b.length) :
    ∀ buf, sigFlags buf blocks = blocks.map (fun b => sigcheck (fread zeroBuf b).1 b.length) := by
  induction blocks with
  | nil => intro buf; rfl
  | cons b bs ih =>
    intro buf
    rw [sigFlags_cons, List.map_cons,
      sigcheck_fread_long buf b (h b (List.mem_cons_self _ _)),
      ih (fun c hc => h c (List.mem_cons_of_mem _ hc))]

theorem segments_false_run (mid : List (List Nat)) :
    ∀ (cur : List Nat) (fs : List Bool) (bs : List (List Nat)),
      segments (List.replicate mid.length false ++ fs) (mid ++ bs) cur =
        segments fs bs (cur ++ mid.flatten) := by
  induction mid with
  | nil => intro cur fs bs; simp
  | cons m mid ih =>
    intro cur fs bs
    have e : segments (List.replicate (m :: mid).length false ++ fs) ((m :: mid) ++ bs) cur =
        segments (List.replicate mid.length false ++ fs) (mid ++ bs) (cur ++ m) := rfl
    rw [e, ih]
    simp

theorem segments_true_run (bs : List (List Nat)) :
    ∀ (cur : List Nat), segments (List.replicate bs.length true) bs cur = cur :: bs := by
  induction bs with
  | nil => intro cur; rfl
  | cons b bs ih =>
    intro cur
    simp only [List.length_cons, List.replicate_succ, segments, ih]

theorem count_take_le_index (l : List Bool) (j : Nat) : (l.take j).count true ≤ j :=
  le_trans (List.count_le_length _ _) (by simp)

/-- With fewer than 1000 flagged blocks, and no creation failure, the scan ends with
success. -/
theorem carve_success_of_count (canCreate : Nat → Bool) (hc : ∀ i, canCreate i = true)
    (buf : Buffer) (blocks : List (List Nat)) (hv : ValidBlocks blocks)
    (hk : (sigFlags buf blocks).count true ≤ NUM_FILE_MAX) :
    (carve canCreate (init buf) blocks).1 = Termination.success := by
  obtain ⟨_, _, h3, h4⟩ := carve_count canCreate hc blocks (init buf)
    (nonempty_of_valid blocks hv) rfl (by simp [init])
  rcases h4 with h4 | h4
  · exact h4
  · obtain ⟨j, _, hj⟩ := h3.mp h4
    have hb : (init buf).buffer = buf := rfl
    have hn : (init buf).nfile = 0 := rfl
    rw [hb, hn] at hj
    have := count_take_le (sigFlags buf blocks) j
    omega

theorem segmentsIdle_true_run (blocks : List (List Nat)) :
    segmentsIdle (List.replicate blocks.length true) blocks = blocks := by
  cases blocks with
  | nil => rfl
  | cons b bs =>
    simp only [List.length_cons, List.replicate_succ, segmentsIdle, segments_true_run]

/-- The counter never passes `NUM_FILE_MAX + 1`, and there are never more files
than the counter says, whether file creation fails or not. -/
theorem carve_bound (canCreate : Nat → Bool) (blocks : List (List Nat)) :
    ∀ (s : State), (∀ b ∈ blocks, b ≠ []) → s.files.map Prod.fst = List.range s.nfile →
      s.nfile ≤ NUM_FILE_MAX + 1 →
      (carve canCreate s blocks).2.nfile ≤ NUM_FILE_MAX + 1 ∧
        (carve canCreate s blocks).2.files.length ≤ (carve canCreate s blocks).2.nfile := by
  induction blocks with
  | nil =>
    intro s _ hk hn
    obtain ⟨_, e2, e3⟩ := carve_nil canCreate s
    have := congrArg List.length hk
    simp only [List.length_map, List.length_range] at this
    rw [e2, e3]
    omega
  | cons blk rest ih =>
    intro s hv hk hn
    have hb : blk ≠ [] := hv blk (List.mem_cons_self _ _)
    have hv2 : ∀ b ∈ rest, b ≠ [] := fun b hb2 => hv b (List.mem_cons_of_mem _ hb2)
    have hlen := congrArg List.length hk
    simp only [List.length_map, List.length_range] at hlen
    by_cases hfull : NUM_FILE_MAX < s.nfile
    · obtain ⟨_, e2, e3, _⟩ := carve_full canCreate s blk rest hb hfull
      rw [e2, e3]
      omega
    · have hle : s.nfile ≤ NUM_FILE_MAX := by omega
      cases hs : sigcheck (fread s.buffer blk).1 blk.length with
      | false =>
        obtain ⟨s1, e, _, _, en, ef⟩ := carve_plain_any canCreate s blk rest hb hle hs
        rw [e]
        exact ih s1 hv2 (by rw [ef, en, hk]) (by omega)
      | true =>
        cases hc : canCreate s.nfile with
        | false =>
          obtain ⟨_, e2, e3⟩ := carve_sig_fail canCreate s blk rest hb hle hs hc
          rw [e2, e3]
          omega
        | true =>
          obtain ⟨s1, e, _, _, en, ef⟩ := carve_sig canCreate s blk rest hb hle hs hc
            (keys_ne_of_range s.files s.nfile hk)
          rw [e]
          exact ih s1 hv2 (by rw [ef, en, List.range_succ]; simp [hk]) (by omega)

/-- When every block carries a signature and no creation fails: up to 1000 blocks
give one file per block, more than 1000 blocks give the file-count error. -/
theorem carve_all_sig (canCreate : Nat → Bool) (hc : ∀ i, canCreate i = true) (buf : Buffer)
    (blocks : List (List Nat)) (hv : ValidBlocks blocks)
    (hall : ∀ f ∈ sigFlags buf blocks, f = true) :
    (blocks.length ≤ NUM_FILE_MAX + 1 →
      (carve canCreate (init buf) blocks).1 = Termination.success ∧
      (carve canCreate (init buf) blocks).2.files = List.enumFrom 0 blocks) ∧
    (NUM_FILE_MAX + 1 < blocks.length →
      (carve canCreate (init buf) blocks).1 = Termination.maxFiles) := by
  have hfl : sigFlags buf blocks = List.replicate blocks.length true := by
    have := List.eq_replicate_iff.mpr ⟨rfl, hall⟩
    rwa [sigFlags_length] at this
  obtain ⟨_, _, h3, h4⟩ := carve_count canCreate hc blocks (init buf)
    (nonempty_of_valid blocks hv) rfl (by simp [init])
  have hb : (init buf).buffer = buf := rfl
  have hn : (init buf).nfile = 0 := rfl
  rw [hb, hn] at h3
  constructor
  · intro hlen
    have hok : (carve canCreate (init buf) blocks).1 = Termination.success := by
      rcases h4 with h4 | h4
      · exact h4
      · obtain ⟨j, hj, hj2⟩ := h3.mp h4
        have := count_take_le_index (sigFlags buf blocks) j
        omega
    refine ⟨hok, ?_⟩
    have := carve_idle_files canCreate blocks (init buf) (nonempty_of_valid blocks hv)
      rfl rfl rfl hok
    rw [this, hb, hfl, segmentsIdle_true_run]
  · intro hlen
    rw [h3]
    refine ⟨NUM_FILE_MAX + 1, hlen, ?_⟩
    rw [hfl, List.take_replicate, List.count_replicate_self]
    simp only [zero_add]
    omega

/-- When no creation fails, the handle is null exactly while the counter is 0, and
refers to the file made last otherwise. -/
theorem carve_handle (canCreate : Nat → Bool) (hc : ∀ i, canCreate i = true)
    (blocks : List (List Nat)) :
    ∀ (s : State), (∀ b ∈ blocks, b ≠ []) → s.files.map Prod.fst = List.range s.nfile →
      s.jpg_fp = (if s.nfile = 0 then none else some (s.nfile - 1)) →
      (carve canCreate s blocks).2.jpg_fp =
        (if (carve canCreate s blocks).2.nfile = 0 then none
          else some ((carve canCreate s blocks).2.nfile - 1)) := by
  induction blocks with
  | nil =>
    intro s _ _ hj
    have e : carve canCreate s [] = finish s := rfl
    obtain ⟨_, _, e3, e4⟩ := finish_facts s
    rw [e, e3, e4, hj]
  | cons blk rest ih =>
    intro s hv hk hj
    have hb : blk ≠ [] := hv blk (List.mem_cons_self _ _)
    have hv2 : ∀ b ∈ rest, b ≠ [] := fun b hb2 => hv b (List.mem_cons_of_mem _ hb2)
    by_cases hfull : NUM_FILE_MAX < s.nfile
    · obtain ⟨_, _, e3, e4⟩ := carve_full canCreate s blk rest hb hfull
      rw [e3, e4, hj]
    · have hle : s.nfile ≤ NUM_FILE_MAX := by omega
      cases hs : sigcheck (fread s.buffer blk).1 blk.length with
      | false =>
        obtain ⟨s1, e, _, ej, en, ef⟩ := carve_plain_any canCreate s blk rest hb hle hs
        rw [e]
        exact ih s1 hv2 (by rw [ef, en, hk]) (by rw [ej, en, hj])
      | true =>
        obtain ⟨s1, e, _, ej, en, ef⟩ := carve_sig canCreate s blk rest hb hle hs (hc _)
          (keys_ne_of_range s.files s.nfile hk)
        rw [e]
        exact ih s1 hv2 (by rw [ef, en, List.range_succ]; simp [hk]) (by rw [ej, en]; simp)

/-! ## A thousand signature blocks -/

theorem sigBlock_flag : sigcheck (fread zeroBuf sigBlock).1 sigBlock.length = true := by
  decide

theorem plainBlock_flag : sigcheck (fread zeroBuf plainBlock).1 plainBlock.length = false := by
  decide

theorem nearBlock_flag : sigcheck (fread zeroBuf nearBlock).1 nearBlock.length = false := by
  decide

theorem valid_thousand : ValidBlocks (List.replicate 1000 sigBlock) := by
  intro b hb
  rw [List.eq_of_mem_replicate hb]
  decide

theorem valid_thousand_and (x : List Nat) (hx : 1 ≤ x.length ∧ x.length ≤ BLOCK_SIZE) :
    ValidBlocks (List.replicate 1000 sigBlock ++ [x]) := by
  intro b hb
  rcases List.mem_append.mp hb with h | h
  · exact valid_thousand b h
  · rw [List.mem_singleton.mp h]
    exact hx

theorem flags_thousand (buf : Buffer) :
    sigFlags buf (List.replicate 1000 sigBlock) = List.replicate 1000 true := by
  rw [sigFlags_long _ (by intro b hb; rw [List.eq_of_mem_replicate hb]; decide)]
  simp [sigBlock_flag]

theorem flags_thousand_and (buf : Buffer) (x : List Nat) (hx : 4 ≤ x.length) :
    sigFlags buf (List.replicate 1000 sigBlock ++ [x]) =
      List.replicate 1000 true ++ [sigcheck (fread zeroBuf x).1 x.length] := by
  rw [sigFlags_long _ (by
    intro b hb
    rcases List.mem_append.mp hb with h | h
    · rw [List.eq_of_mem_replicate h]; decide
    · rw [List.mem_singleton.mp h]; exact hx)]
  simp [sigBlock_flag]

/-- The scan of 1000 signature blocks: success, counter 1000, `999.jpg` open, one
block in each file. -/
theorem thousand_run :
    (carve (fun _ => true) (init zeroBuf) (List.replicate 1000 sigBlock)).1
        = Termination.success ∧
      (carve (fun _ => true) (init zeroBuf) (List.replicate 1000 sigBlock)).2.files
        = List.enumFrom 0 (List.replicate 1000 sigBlock) ∧
      (carve (fun _ => true) (init zeroBuf) (List.replicate 1000 sigBlock)).2.nfile = 1000 ∧
      (carve (fun _ => true) (init zeroBuf) (List.replicate 1000 sigBlock)).2.jpg_fp
        = some 999 := by
  have hall : ∀ f ∈ sigFlags zeroBuf (List.replicate 1000 sigBlock), f = true := by
    rw [flags_thousand]
    intro f hf
    exact List.eq_of_mem_replicate hf
  obtain ⟨h1, h2⟩ := (carve_all_sig (fun _ => true) (fun _ => rfl) zeroBuf _ valid_thousand
    hall).1 (by simp [NUM_FILE_MAX])
  obtain ⟨_, c2, _, _⟩ := carve_count (fun _ => true) (fun _ => rfl)
    (List.replicate 1000 sigBlock) (init zeroBuf)
    (nonempty_of_valid _ valid_thousand) rfl (by simp [init])
  have hb : (init zeroBuf).buffer = zeroBuf := rfl
  have hn : (init zeroBuf).nfile = 0 := rfl
  rw [hb, hn, flags_thousand, List.count_replicate_self] at c2
  have c3 : (carve (fun _ => true) (init zeroBuf) (List.replicate 1000 sigBlock)).2.nfile
      = 1000 := by rw [c2]; decide
  have hh := carve_handle (fun _ => true) (fun _ => rfl) (List.replicate 1000 sigBlock)
    (init zeroBuf) (nonempty_of_valid _ valid_thousand) rfl rfl
  rw [c3] at hh
  exact ⟨h1, h2, c3, by rw [hh]; rfl⟩

/-- C4, counterexample. The image of 1000 signature blocks followed by one full
block of zeros: `sigcheck` is true on the first 1000 blocks and false on the last;
the scan ends with the file-count error, although no block on which `sigcheck`
is true is read after 1000 files were created. -/
theorem C4_plain_block_after_cap_fails :
    ValidBlocks (List.replicate 1000 sigBlock ++ [plainBlock]) ∧
    sigFlags zeroBuf (List.replicate 1000 sigBlock ++ [plainBlock])
      = List.replicate 1000 true ++ [false] ∧
    (carve (fun _ => true) (init zeroBuf) (List.replicate 1000 sigBlock ++ [plainBlock])).1
      = Termination.maxFiles ∧
    ¬ ∃ j, j < (List.replicate 1000 sigBlock ++ [plainBlock]).length ∧
        (sigFlags zeroBuf (List.replicate 1000 sigBlock ++ [plainBlock]))[j]? = some true ∧
        1000 ≤ ((sigFlags zeroBuf (List.replicate 1000 sigBlock ++ [plainBlock])).take j).count
          true := by
  have hfl : sigFlags zeroBuf (List.replicate 1000 sigBlock ++ [plainBlock])
      = List.replicate 1000 true ++ [false] := by
    rw [flags_thousand_and zeroBuf plainBlock (by decide), plainBlock_flag]
  refine ⟨valid_thousand_and plainBlock (by decide), hfl, ?_, ?_⟩
  · exact (carve_append_full (fun _ => true) (List.replicate 1000 sigBlock) [] plainBlock
      (init zeroBuf) (nonempty_of_valid _ valid_thousand) (by decide) thousand_run.1
      (by rw [thousand_run.2.2.1]; decide)).1
  · rintro ⟨j, hj, hj1, hj2⟩
    have h1 := count_take_le_index
      (sigFlags zeroBuf (List.replicate 1000 sigBlock ++ [plainBlock])) j
    simp only [List.length_append, List.length_replicate, List.length_singleton] at hj
    have hj3 : j = 1000 := by omega
    rw [hfl, hj3] at hj1
    simp at hj1

/-- C4, amended. One iteration ends with the file-count error exactly when the
counter exceeds `NUM_FILE_MAX` at that iteration, whether or not the block read
carries a signature.  Hence, when no creation fails, the scan ends with the
file-count error exactly when some block is read after 1000 blocks with a
signature. -/
theorem C4_maxFiles_iff_block_after_cap (canCreate : Nat → Bool)
    (hc : ∀ i, canCreate i = true) (buf : Buffer) (blocks : List (List Nat))
    (hv : ValidBlocks blocks) :
    (∀ (s : State) (n : Nat),
      (∃ s1, loopBody canCreate s n = Outcome.exited Termination.maxFiles s1) ↔
        NUM_FILE_MAX < s.nfile) ∧
    ((carve canCreate (init buf) blocks).1 = Termination.maxFiles ↔
      ∃ j, j < blocks.length ∧ 1000 ≤ ((sigFlags buf blocks).take j).count true) := by
  constructor
  · intro s n
    constructor
    · rintro ⟨s1, h⟩
      by_contra hfull
      have hle : s.nfile ≤ NUM_FILE_MAX := by omega
      cases hs : sigcheck s.buffer n with
      | false =>
        rw [loopBody_plain canCreate s n hs hle] at h
        cases h
      | true =>
        obtain ⟨s2, e, _⟩ := loopBody_sig canCreate s n hs hle (hc _)
        rw [e] at h
        cases h
    · intro hfull
      exact ⟨_, loopBody_full canCreate s n hfull⟩
  · obtain ⟨_, _, h3, _⟩ := carve_count canCreate hc blocks (init buf)
      (nonempty_of_valid blocks hv) rfl (by simp [init])
    have hb : (init buf).buffer = buf := rfl
    have hn : (init buf).nfile = 0 := rfl
    have hmax : NUM_FILE_MAX + 1 = 1000 := rfl
    rw [hb, hn, hmax] at h3
    simpa using h3

/-- C4, witness: `demoBlocks`. -/
theorem C4_maxFiles_iff_block_after_cap_witness :
    (∀ i, (fun _ => true : Nat → Bool) i = true) ∧ ValidBlocks demoBlocks ∧
    ((∀ (s : State) (n : Nat),
      (∃ s1, loopBody (fun _ => true) s n = Outcome.exited Termination.maxFiles s1) ↔
        NUM_FILE_MAX < s.nfile) ∧
    ((carve (fun _ => true) (init zeroBuf) demoBlocks).1 = Termination.maxFiles ↔
      ∃ j, j < demoBlocks.length ∧ 1000 ≤ ((sigFlags zeroBuf demoBlocks).take j).count true)) :=
  ⟨fun _ => rfl, by decide,
    C4_maxFiles_iff_block_after_cap (fun _ => true) (fun _ => rfl) zeroBuf demoBlocks
      (by decide)⟩

/-- One flagged block.  An input made of one block on which `sigcheck` is true followed by `N`
blocks on which it is false (`N` the length of `rest`): the scan ends with success
and leaves exactly one file, numbered 0 and named `000.jpg`, whose content is the
`N + 1` blocks concatenated. -/
theorem one_flagged_block_one_file (canCreate : Nat → Bool) (hc : ∀ i, canCreate i = true)
    (buf : Buffer) (b0 : List Nat) (rest : List (List Nat)) (hv : ValidBlocks (b0 :: rest))
    (hf : sigFlags buf (b0 :: rest) = true :: List.replicate rest.length false) :
    (carve canCreate (init buf) (b0 :: rest)).1 = Termination.success ∧
      (carve canCreate (init buf) (b0 :: rest)).2.files = [(0, (b0 :: rest).flatten)] ∧
      filename 0 = "000.jpg" := by
  have hok : (carve canCreate (init buf) (b0 :: rest)).1 = Termination.success := by
    apply carve_success_of_count canCreate hc buf _ hv
    rw [hf]
    simp [NUM_FILE_MAX, List.count_replicate]
  refine ⟨hok, ?_, by decide⟩
  have := carve_idle_files canCreate (b0 :: rest) (init buf) (nonempty_of_valid _ hv)
    rfl rfl rfl hok
  have hb : (init buf).buffer = buf := rfl
  rw [this, hb, hf]
  have e := segments_false_run rest b0 [] []
  simp only [List.append_nil] at e
  simp [segmentsIdle, e, segments]

/-- One flagged block, at an input: a signature block followed by two other blocks. -/
theorem one_flagged_block_one_file_demo :
    (∀ i, (fun _ => true : Nat → Bool) i = true) ∧
    ValidBlocks ([0xff, 0xd8, 0xff, 0xe1, 4] :: [[1, 2, 3], [9]]) ∧
    sigFlags zeroBuf ([0xff, 0xd8, 0xff, 0xe1, 4] :: [[1, 2, 3], [9]])
      = true :: List.replicate [[1, 2, 3], [9]].length false ∧
    ((carve (fun _ => true) (init zeroBuf) ([0xff, 0xd8, 0xff, 0xe1, 4] :: [[1, 2, 3], [9]])).1
        = Termination.success ∧
      (carve (fun _ => true) (init zeroBuf)
          ([0xff, 0xd8, 0xff, 0xe1, 4] :: [[1, 2, 3], [9]])).2.files
        = [(0, ([0xff, 0xd8, 0xff, 0xe1, 4] :: [[1, 2, 3], [9]]).flatten)] ∧
      filename 0 = "000.jpg") :=
  ⟨fun _ => rfl, by decide, by decide,
    one_flagged_block_one_file (fun _ => true) (fun _ => rfl) zeroBuf
      [0xff, 0xd8, 0xff, 0xe1, 4] [[1, 2, 3], [9]] (by decide) (by decide)⟩

/-- C7. An input made of a block on which `sigcheck` is true, then `K` blocks on
which it is false (`K` the length of `mid`), then a last block on which it is true:
the scan leaves exactly two files; `000.jpg` holds the first block followed by the
`K` blocks, `001.jpg` holds the last block alone. -/
theorem C7_two_signatures_two_files (canCreate : Nat → Bool)
    (hc : ∀ i, canCreate i = true) (buf : Buffer) (b0 b1 : List Nat)
    (mid : List (List Nat)) (hv : ValidBlocks (b0 :: (mid ++ [b1])))
    (hf : sigFlags buf (b0 :: (mid ++ [b1]))
      = true :: (List.replicate mid.length false ++ [true])) :
    (carve canCreate (init buf) (b0 :: (mid ++ [b1]))).1 = Termination.success ∧
      (carve canCreate (init buf) (b0 :: (mid ++ [b1]))).2.files
        = [(0, (b0 :: mid).flatten), (1, b1)] ∧
      filename 0 = "000.jpg" ∧ filename 1 = "001.jpg" := by
  have hok : (carve canCreate (init buf) (b0 :: (mid ++ [b1]))).1 = Termination.success := by
    apply carve_success_of_count canCreate hc buf _ hv
    rw [hf]
    simp [NUM_FILE_MAX, List.count_replicate]
  refine ⟨hok, ?_, by decide, by decide⟩
  have := carve_idle_files canCreate (b0 :: (mid ++ [b1])) (init buf)
    (nonempty_of_valid _ hv) rfl rfl rfl hok
  have hb : (init buf).buffer = buf := rfl
  rw [this, hb, hf]
  simp [segmentsIdle, segments_false_run, segments]

/-- C7, witness: two signature blocks with two other blocks between them. -/
theorem C7_two_signatures_two_files_witness :
    (∀ i, (fun _ => true : Nat → Bool) i = true) ∧
    ValidBlocks ([0xff, 0xd8, 0xff, 0xe0] :: ([[1, 2], [3]] ++ [[0xff, 0xd8, 0xff, 0xef, 7]])) ∧
    sigFlags zeroBuf ([0xff, 0xd8, 0xff, 0xe0] :: ([[1, 2], [3]] ++ [[0xff, 0xd8, 0xff, 0xef, 7]]))
      = true :: (List.replicate [[1, 2], [3]].length false ++ [true]) ∧
    ((carve (fun _ => true) (init zeroBuf)
        ([0xff, 0xd8, 0xff, 0xe0] :: ([[1, 2], [3]] ++ [[0xff, 0xd8, 0xff, 0xef, 7]]))).1
        = Termination.success ∧
      (carve (fun _ => true) (init zeroBuf)
        ([0xff, 0xd8, 0xff, 0xe0] :: ([[1, 2], [3]] ++ [[0xff, 0xd8, 0xff, 0xef, 7]]))).2.files
        = [(0, ([0xff, 0xd8, 0xff, 0xe0] :: [[1, 2], [3]]).flatten),
           (1, [0xff, 0xd8, 0xff, 0xef, 7])] ∧
      filename 0 = "000.jpg" ∧ filename 1 = "001.jpg") :=
  ⟨fun _ => rfl, by decide, by decide,
    C7_two_signatures_two_files (fun _ => true) (fun _ => rfl) zeroBuf
      [0xff, 0xd8, 0xff, 0xe0] [0xff, 0xd8, 0xff, 0xef, 7] [[1, 2], [3]] (by decide)
      (by decide)⟩

/-- C8. No scan lets the counter pass 1000 or leaves more than 1000 files, whether
creation fails or not.  When no creation fails and `sigcheck` is true on every
block: 1000 blocks give success and the files numbered 0 to 999 (`000.jpg` to
`999.jpg`), one block in each; 1001 blocks give the failure status.  The cap is
`NUM_FILE_MAX + 1`. -/
theorem C8_exactly_thousand_files (canCreate : Nat → Bool) (buf : Buffer)
    (blocks : List (List Nat)) (hv : ValidBlocks blocks) :
    ((carve canCreate (init buf) blocks).2.nfile ≤ 1000 ∧
      (carve canCreate (init buf) blocks).2.files.length ≤ 1000) ∧
    ((∀ i, canCreate i = true) → (∀ f ∈ sigFlags buf blocks, f = true) →
      (blocks.length = 1000 →
        (carve canCreate (init buf) blocks).1 = Termination.success ∧
        (carve canCreate (init buf) blocks).1.status = EXIT_SUCCESS ∧
        (carve canCreate (init buf) blocks).2.files = List.enumFrom 0 blocks ∧
        (carve canCreate (init buf) blocks).2.files.map Prod.fst = List.range 1000) ∧
      (blocks.length = 1001 →
        (carve canCreate (init buf) blocks).1 = Termination.maxFiles ∧
        (carve canCreate (init buf) blocks).1.status = EXIT_FAILURE)) ∧
    filename 0 = "000.jpg" ∧ filename 999 = "999.jpg" ∧ NUM_FILE_MAX + 1 = 1000 := by
  have hmax : NUM_FILE_MAX + 1 = 1000 := rfl
  refine ⟨?_, ?_, by decide, by decide, hmax⟩
  · obtain ⟨h1, h2⟩ := carve_bound canCreate blocks (init buf) (nonempty_of_valid blocks hv)
      rfl (by simp [init])
    rw [hmax] at h1
    exact ⟨h1, le_trans h2 h1⟩
  · intro hc hall
    obtain ⟨a1, a2⟩ := carve_all_sig canCreate hc buf blocks hv hall
    rw [hmax] at a1 a2
    constructor
    · intro hlen
      obtain ⟨b1, b2⟩ := a1 (by omega)
      refine ⟨b1, by rw [b1]; rfl, b2, ?_⟩
      rw [b2, List.enumFrom_map_fst, hlen, List.range_eq_range']
    · intro hlen
      have b1 := a2 (by omega)
      exact ⟨b1, by rw [b1]; rfl⟩

/-- C8, witness: 1000 copies of `sigBlock`. -/
theorem C8_exactly_thousand_files_witness :
    ValidBlocks (List.replicate 1000 sigBlock) ∧
    (∀ i, (fun _ => true : Nat → Bool) i = true) ∧
    (∀ f ∈ sigFlags zeroBuf (List.replicate 1000 sigBlock), f = true) ∧
    (List.replicate 1000 sigBlock).length = 1000 ∧
    ((carve (fun _ => true) (init zeroBuf) (List.replicate 1000 sigBlock)).1
        = Termination.success ∧
      (carve (fun _ => true) (init zeroBuf) (List.replicate 1000 sigBlock)).1.status
        = EXIT_SUCCESS ∧
      (carve (fun _ => true) (init zeroBuf) (List.replicate 1000 sigBlock)).2.files
        = List.enumFrom 0 (List.replicate 1000 sigBlock) ∧
      (carve (fun _ => true) (init zeroBuf) (List.replicate 1000 sigBlock)).2.files.map Prod.fst
        = List.range 1000) :=
  ⟨valid_thousand, fun _ => rfl,
    by rw [flags_thousand]; exact fun f hf => List.eq_of_mem_replicate hf,
    List.length_replicate _ _,
    ((C8_exactly_thousand_files (fun _ => true) zeroBuf (List.replicate 1000 sigBlock)
      valid_thousand).2.1 (fun _ => rfl)
      (by rw [flags_thousand]; exact fun f hf => List.eq_of_mem_replicate hf)).1
      (List.length_replicate _ _)⟩

/-- C9, counterexample. After 1000 signature blocks the counter is 1000 and
`999.jpg` is open.  A further block `ff d8 ff f0 ...` (three signature bytes, fourth
byte out of range) is not appended to the open file: the scan ends with the
file-count error and the files are those of the scan without that block. -/
theorem C9_near_signature_after_cap_not_appended :
    ValidBlocks (List.replicate 1000 sigBlock ++ [nearBlock]) ∧
    (carve (fun _ => true) (init zeroBuf) (List.replicate 1000 sigBlock)).1
      = Termination.success ∧
    (carve (fun _ => true) (init zeroBuf) (List.replicate 1000 sigBlock)).2.nfile = 1000 ∧
    (carve (fun _ => true) (init zeroBuf) (List.replicate 1000 sigBlock)).2.jpg_fp
      = some 999 ∧
    (carve (fun _ => true) (init zeroBuf) (List.replicate 1000 sigBlock ++ [nearBlock])).1
      = Termination.maxFiles ∧
    (carve (fun _ => true) (init zeroBuf) (List.replicate 1000 sigBlock ++ [nearBlock])).2.files
      = List.enumFrom 0 (List.replicate 1000 sigBlock) := by
  obtain ⟨t1, t2, t3, t4⟩ := thousand_run
  obtain ⟨a1, a2, _, _⟩ := carve_append_full (fun _ => true) (List.replicate 1000 sigBlock) []
    nearBlock (init zeroBuf) (nonempty_of_valid _ valid_thousand) (by decide) t1
    (by rw [t3]; decide)
  exact ⟨valid_thousand_and nearBlock (by decide), t1, t3, t4, a1, by rw [a2, t2]⟩

/-- C9, amended. A block of at least 4 bytes that starts with `ff d8 ff` and whose
fourth byte is outside `[e0, ef]`, read in any state whose counter is at most
`NUM_FILE_MAX`: the iteration opens no file, leaves counter and handle as they
were, and appends the block to the open file if there is one (the only library
call is that write); with no open file the block is dropped.  In a state whose
counter exceeds `NUM_FILE_MAX` the iteration ends the scan with the file-count
error and no file changes. -/
theorem C9_out_of_range_fourth_byte (canCreate : Nat → Bool) (s : State) (d : Nat)
    (tail : List Nat) (hd : d < 0xe0 ∨ 0xef < d) :
    (s.nfile ≤ NUM_FILE_MAX →
      ∃ s1, loopBody canCreate
          { s with buffer := (fread s.buffer (0xff :: 0xd8 :: 0xff :: d :: tail)).1 }
          (0xff :: 0xd8 :: 0xff :: d :: tail).length = Outcome.running s1 ∧
        s1.nfile = s.nfile ∧ s1.jpg_fp = s.jpg_fp ∧
        s1.files = (match s.jpg_fp with
          | some h => fsWrite h (0xff :: 0xd8 :: 0xff :: d :: tail) s.files
          | none => s.files) ∧
        s1.log = s.log ++ (match s.jpg_fp with
          | some h => [Event.fwrite h (0xff :: 0xd8 :: 0xff :: d :: tail)]
          | none => [])) ∧
    (NUM_FILE_MAX < s.nfile →
      ∃ s1, loopBody canCreate
          { s with buffer := (fread s.buffer (0xff :: 0xd8 :: 0xff :: d :: tail)).1 }
          (0xff :: 0xd8 :: 0xff :: d :: tail).length
            = Outcome.exited Termination.maxFiles s1 ∧
        s1.nfile = s.nfile ∧ s1.files = s.files) := by
  have hs : sigcheck (fread s.buffer (0xff :: 0xd8 :: 0xff :: d :: tail)).1
      (0xff :: 0xd8 :: 0xff :: d :: tail).length = false := by
    cases h : sigcheck (fread s.buffer (0xff :: 0xd8 :: 0xff :: d :: tail)).1
      (0xff :: 0xd8 :: 0xff :: d :: tail).length with
    | false => rfl
    | true =>
      rw [sigcheck_iff_of_three_le _ _ (by simp)] at h
      have h3 : (fread s.buffer (0xff :: 0xd8 :: 0xff :: d :: tail)).1 3 = d := by
        simp [fread]
      rw [h3] at h
      omega
  have hdata := fread_data s.buffer (0xff :: 0xd8 :: 0xff :: d :: tail)
  rw [fread_count] at hdata
  constructor
  · intro hle
    rw [loopBody_plain canCreate
      { s with buffer := (fread s.buffer (0xff :: 0xd8 :: 0xff :: d :: tail)).1 } _ hs hle]
    refine ⟨_, rfl, ?_⟩
    unfold writeBlock
    cases hj : s.jpg_fp with
    | none => simp [hj]
    | some h => simp only [hj, hdata, and_self]
  · intro hfull
    rw [loopBody_full canCreate
      { s with buffer := (fread s.buffer (0xff :: 0xd8 :: 0xff :: d :: tail)).1 } _ hfull]
    exact ⟨_, rfl, rfl, rfl⟩

/-- C9, witness: the block `ff d8 ff f0 05` read while `000.jpg` is open. -/
theorem C9_out_of_range_fourth_byte_witness :
    ((0xf0 : Nat) < 0xe0 ∨ 0xef < (0xf0 : Nat)) ∧ activeState.nfile ≤ NUM_FILE_MAX ∧
    ∃ s1, loopBody (fun _ => true)
        { activeState with
          buffer := (fread activeState.buffer (0xff :: 0xd8 :: 0xff :: 0xf0 :: [5])).1 }
        (0xff :: 0xd8 :: 0xff :: 0xf0 :: [5]).length = Outcome.running s1 ∧
      s1.nfile = activeState.nfile ∧ s1.jpg_fp = activeState.jpg_fp ∧
      s1.files = (match activeState.jpg_fp with
        | some h => fsWrite h (0xff :: 0xd8 :: 0xff :: 0xf0 :: [5]) activeState.files
        | none => activeState.files) ∧
      s1.log = activeState.log ++ (match activeState.jpg_fp with
        | some h => [Event.fwrite h (0xff :: 0xd8 :: 0xff :: 0xf0 :: [5])]
        | none => []) :=
  ⟨Or.inr (by decide), by decide,
    (C9_out_of_range_fourth_byte (fun _ => true) activeState 0xf0 [5]
      (Or.inr (by decide))).1 (by decide)⟩

/-! ## sigcheck on every byte count -/

/-- C17. For every buffer and every byte count `n`, `sigcheck(buf, n)` is true exactly
when the first `k = min(SIG_SIZE, n)` bytes equal the first `k` bytes of
`ff d8 ff`, position by position, and the byte at offset `k` is in `[e0, ef]`.
For `n = 0, 1, 2` the range test is thus applied at offset `n`, not at
offset 3. -/
theorem C17_sigcheck_compares_min_three (buf : Buffer) (n : Nat) :
    (sigcheck buf n = true ↔
      (∀ i, i < min SIG_SIZE n → buf i = jpg_sig.getD i 0) ∧
        FOURTH_BYTE_MIN ≤ buf (min SIG_SIZE n) ∧ buf (min SIG_SIZE n) ≤ FOURTH_BYTE_MAX) ∧
    (sigcheck buf 0 = true ↔ 0xe0 ≤ buf 0 ∧ buf 0 ≤ 0xef) ∧
    (sigcheck buf 1 = true ↔ buf 0 = 0xff ∧ 0xe0 ≤ buf 1 ∧ buf 1 ≤ 0xef) ∧
    (sigcheck buf 2 = true ↔ buf 0 = 0xff ∧ buf 1 = 0xd8 ∧ 0xe0 ≤ buf 2 ∧ buf 2 ≤ 0xef) := by
  have c0 : sigcheck buf 0 = true ↔ 0xe0 ≤ buf 0 ∧ buf 0 ≤ 0xef := by
    simp [sigcheck, sigLoop, jpg_sig, FOURTH_BYTE_MIN, FOURTH_BYTE_MAX]
  have c1 : sigcheck buf 1 = true ↔ buf 0 = 0xff ∧ 0xe0 ≤ buf 1 ∧ buf 1 ≤ 0xef := by
    simp only [sigcheck, sigLoop, jpg_sig, FOURTH_BYTE_MIN, FOURTH_BYTE_MAX]
    by_cases e0 : buf 0 = 0xff <;> simp [e0]
  have c2 : sigcheck buf 2 = true ↔
      buf 0 = 0xff ∧ buf 1 = 0xd8 ∧ 0xe0 ≤ buf 2 ∧ buf 2 ≤ 0xef := by
    simp only [sigcheck, sigLoop, jpg_sig, FOURTH_BYTE_MIN, FOURTH_BYTE_MAX]
    by_cases e0 : buf 0 = 0xff <;> by_cases e1 : buf 1 = 0xd8 <;> simp [e0, e1]
  refine ⟨?_, c0, c1, c2⟩
  have hall : ∀ k, k ≤ 3 → ((∀ i, i < k → buf i = jpg_sig.getD i 0) ↔
      (0 < k → buf 0 = 0xff) ∧ (1 < k → buf 1 = 0xd8) ∧ (2 < k → buf 2 = 0xff)) := by
    intro k hk
    constructor
    · intro h
      exact ⟨fun h0 => h 0 h0, fun h1 => h 1 h1, fun h2 => h 2 h2⟩
    · rintro ⟨h0, h1, h2⟩ i hi
      have : i = 0 ∨ i = 1 ∨ i = 2 := by omega
      rcases this with e | e | e
      · subst e; exact h0 hi
      · subst e; exact h1 hi
      · subst e; exact h2 hi
  have hS : SIG_SIZE = 3 := rfl
  have hm : FOURTH_BYTE_MIN = 0xe0 := rfl
  have hM : FOURTH_BYTE_MAX = 0xef := rfl
  rw [hS, hm, hM]
  rcases Nat.lt_or_ge n 3 with hlt | hge
  · have : n = 0 ∨ n = 1 ∨ n = 2 := by omega
    rcases this with e | e | e
    · subst e
      rw [c0, hall _ (by simp)]
      simp
    · subst e
      rw [c1, hall _ (by simp)]
      simp
    · subst e
      rw [c2, hall _ (by simp)]
      simp
      tauto
  · have hmin : min 3 n = 3 := by omega
    rw [hmin, sigcheck_iff_of_three_le buf n hge, hall 3 (le_refl _)]
    simp
    tauto

/-! ## The invariant of the loop -/

theorem opens_append (l1 l2 : List Event) : opens (l1 ++ l2) = opens l1 ++ opens l2 := by
  induction l1 with
  | nil => rfl
  | cons e l1 ih => cases e <;> simp [opens, ih]

theorem sessions_append (l1 l2 : List Event) :
    ∀ cur, sessions cur (l1 ++ l2) = (sessions cur l1).bind (fun c => sessions c l2) := by
  induction l1 with
  | nil => intro cur; rfl
  | cons e l1 ih =>
    intro cur
    cases e with
    | fopenW name h =>
      simp only [List.cons_append, sessions]
      split
      · exact ih h
      · rfl
    | fclose h =>
      simp only [List.cons_append, sessions]
      split
      · exact ih none
      · rfl
    | fwrite h data =>
      simp only [List.cons_append, sessions]
      split
      · exact ih cur
      · rfl
    | fcloseImg => simpa only [List.cons_append, sessions] using ih cur
    | freeBuffer => simpa only [List.cons_append, sessions] using ih cur

theorem init_inv (buf : Buffer) : LoopInv (init buf) := by
  simp [LoopInv, init, sessions, opens]

theorem range_succ_names (n : Nat) :
    (List.range n).map filename ++ [filename n] = (List.range (n + 1)).map filename := by
  rw [List.range_succ, List.map_append]
  rfl

theorem closePrevious_inv (s : State) (h : LoopInv s) :
    sessions none (closePrevious s).log = some none ∧
      opens (closePrevious s).log = (List.range s.nfile).map filename ∧
      (closePrevious s).nfile = s.nfile := by
  obtain ⟨_, _, hs, ho⟩ := h
  unfold closePrevious
  cases hjj : s.jpg_fp with
  | none =>
    rw [hjj] at hs
    exact ⟨hs, ho, rfl⟩
  | some c =>
    rw [hjj] at hs
    refine ⟨?_, ?_, rfl⟩
    · simp [sessions_append, hs, sessions]
    · simp [opens_append, ho, opens]

theorem writeBlock_inv (s : State) (n : Nat) (h : LoopInv s) : LoopInv (writeBlock s n) := by
  obtain ⟨hj, hn, hs, ho⟩ := h
  unfold writeBlock
  cases hjj : s.jpg_fp with
  | none => exact ⟨hj, hn, hs, ho⟩
  | some c =>
    rw [hjj] at hs hj
    refine ⟨hj, hn, ?_, ?_⟩
    · simp [sessions_append, hs, sessions]
    · simp [opens_append, ho, opens]

/-- One iteration keeps the invariant; an exit inside it leaves every file closed. -/
theorem loopBody_inv (canCreate : Nat → Bool) (s : State) (n : Nat) (h : LoopInv s) :
    (∀ s1, loopBody canCreate s n = Outcome.running s1 → LoopInv s1) ∧
    (∀ t s1, loopBody canCreate s n = Outcome.exited t s1 → ExitInv s1) := by
  obtain ⟨k1, k2, k3⟩ := closePrevious_inv s h
  have hw := writeBlock_inv s n h
  obtain ⟨hj, hn, hs, ho⟩ := h
  by_cases hfull : NUM_FILE_MAX < s.nfile
  · rw [loopBody_full canCreate _ n hfull]
    constructor
    · intro s1 e; cases e
    · intro t s1 e
      cases e
      have hpos : s.nfile ≠ 0 := by omega
      rw [if_neg hpos] at hj
      refine ⟨hn, ?_, ?_⟩
      · simp [sessions_append, hs, sessions, hj]
      · simp [opens_append, ho, opens]
  · have hle : s.nfile ≤ NUM_FILE_MAX := by omega
    cases hsig : sigcheck s.buffer n with
    | false =>
      rw [loopBody_plain canCreate _ n hsig hle]
      constructor
      · intro s1 e
        cases e
        exact hw
      · intro t s1 e; cases e
    | true =>
      have hcond : (sigcheck s.buffer n && decide (s.nfile ≤ NUM_FILE_MAX)) = true := by
        simp [hsig, hle]
      cases hc : canCreate s.nfile with
      | true =>
        constructor
        · intro s1 e
          simp only [loopBody, hcond, if_true, k3, hc] at e
          cases e
          refine ⟨?_, ?_, ?_, ?_⟩
          · simp [writeBlock]
          · simp only [writeBlock]; omega
          · simp [writeBlock, sessions_append, k1, sessions]
          · simp [writeBlock, opens_append, k2, opens, range_succ_names]
        · intro t s1 e
          simp only [loopBody, hcond, if_true, k3, hc] at e
          cases e
      | false =>
        constructor
        · intro s1 e
          simp only [loopBody, hcond, if_true, k3, hc] at e
          cases e
        · intro t s1 e
          simp only [loopBody, hcond, if_true, k3, hc] at e
          cases e
          refine ⟨?_, ?_, ?_⟩
          · simp only; omega
          · simp [sessions_append, k1, sessions]
          · simp [opens_append, k2, opens, range_succ_names]

theorem finish_inv (s : State) (h : LoopInv s) : ExitInv (finish s).2 := by
  obtain ⟨k1, k2, k3⟩ := closePrevious_inv s h
  obtain ⟨_, hn, _, _⟩ := h
  unfold finish
  refine ⟨?_, ?_, ?_⟩
  · simp only [k3]; exact hn
  · simp [sessions_append, k1, sessions]
  · simp [opens_append, k2, opens, k3]

/-- Every state in which the loop condition is evaluated satisfies the invariant,
and every exit inside the loop leaves the files closed. -/
theorem runLoop_inv (canCreate : Nat → Bool) (blocks : List (List Nat)) :
    ∀ (s : State), LoopInv s →
      (∀ s1, runLoop canCreate s blocks = Outcome.running s1 → LoopInv s1) ∧
      (∀ t s1, runLoop canCreate s blocks = Outcome.exited t s1 → ExitInv s1) := by
  induction blocks with
  | nil =>
    intro s h
    constructor
    · intro s1 e; cases e; exact h
    · intro t s1 e; cases e
  | cons blk rest ih =>
    intro s h
    have h0 : LoopInv { s with buffer := (fread s.buffer blk).1 } := h
    obtain ⟨b1, b2⟩ := loopBody_inv canCreate { s with buffer := (fread s.buffer blk).1 }
      (fread s.buffer blk).2 h0
    simp only [runLoop]
    split
    · constructor
      · intro s1 e; cases e; exact h0
      · intro t s1 e; cases e
    · split <;> rename_i heq
      · exact ih _ (b1 _ heq)
      · constructor
        · intro s1 e; cases e
        · intro t s1 e
          cases e
          exact b2 _ _ heq

theorem carve_inv (canCreate : Nat → Bool) (blocks : List (List Nat)) (s : State)
    (h : LoopInv s) : ExitInv (carve canCreate s blocks).2 := by
  obtain ⟨r1, r2⟩ := runLoop_inv canCreate blocks s h
  rw [carve_eq_runLoop]
  cases hr : runLoop canCreate s blocks with
  | running s1 => exact finish_inv s1 (r1 s1 hr)
  | exited t s1 => exact r2 t s1 hr

theorem sessions_none_of_close_null (log : List Event) :
    ∀ cur, Event.fclose none ∈ log → sessions cur log = none := by
  induction log with
  | nil => intro cur h; simp at h
  | cons e log ih =>
    intro cur h
    rcases List.mem_cons.mp h with h1 | h1
    · subst h1
      simp [sessions]
    · cases e with
      | fopenW name h2 =>
        simp only [sessions]
        split
        · exact ih _ h1
        · rfl
      | fclose h2 =>
        simp only [sessions]
        split
        · exact ih _ h1
        · rfl
      | fwrite h2 data =>
        simp only [sessions]
        split
        · exact ih _ h1
        · rfl
      | fcloseImg => simpa only [sessions] using ih cur h1
      | freeBuffer => simpa only [sessions] using ih cur h1

/-- C19. Whenever the loop condition is evaluated (after any sequence `front` of
blocks read so far), `jpg_fp` is non-null exactly when `nfile` is above 0, and
`nfile` is at most 1000; so a state in which the branch `nfile > NUM_FILE_MAX` is
taken has a file open.  In the calls of any scan, `fclose` is never applied to a
null handle. -/
theorem C19_handle_iff_counter_positive (canCreate : Nat → Bool) (buf : Buffer) :
    (∀ (front : List (List Nat)) (s : State),
      runLoop canCreate (init buf) front = Outcome.running s →
        (s.jpg_fp ≠ none ↔ 0 < s.nfile) ∧ s.nfile ≤ 1000 ∧
        (NUM_FILE_MAX < s.nfile → s.jpg_fp ≠ none)) ∧
    (∀ (blocks : List (List Nat)),
      Event.fclose none ∉ (carve canCreate (init buf) blocks).2.log) := by
  constructor
  · intro front s hr
    obtain ⟨hj, hn, _, _⟩ := (runLoop_inv canCreate front (init buf) (init_inv buf)).1 s hr
    have hmax : NUM_FILE_MAX + 1 = 1000 := rfl
    rw [hmax] at hn
    have hiff : s.jpg_fp ≠ none ↔ 0 < s.nfile := by
      rw [hj]
      by_cases h0 : s.nfile = 0
      · simp [h0]
      · simp [h0]
        omega
    exact ⟨hiff, hn, fun hfull => hiff.mpr (by omega)⟩
  · intro blocks hmem
    obtain ⟨_, hs, _⟩ := carve_inv canCreate blocks (init buf) (init_inv buf)
    rw [sessions_none_of_close_null _ none hmem] at hs
    cases hs

/-- C19, at an input: after the blocks of `demoBlocks` the counter is 2 and
`001.jpg` is open. -/
theorem C19_handle_iff_counter_positive_witness :
    runLoop (fun _ => true) (init zeroBuf) demoBlocks
        = Outcome.running (runLoop (fun _ => true) (init zeroBuf) demoBlocks).state ∧
      (runLoop (fun _ => true) (init zeroBuf) demoBlocks).state.nfile = 2 ∧
      (runLoop (fun _ => true) (init zeroBuf) demoBlocks).state.jpg_fp = some 1 ∧
      (((runLoop (fun _ => true) (init zeroBuf) demoBlocks).state.jpg_fp ≠ none ↔
          0 < (runLoop (fun _ => true) (init zeroBuf) demoBlocks).state.nfile) ∧
        (runLoop (fun _ => true) (init zeroBuf) demoBlocks).state.nfile ≤ 1000 ∧
        (NUM_FILE_MAX < (runLoop (fun _ => true) (init zeroBuf) demoBlocks).state.nfile →
          (runLoop (fun _ => true) (init zeroBuf) demoBlocks).state.jpg_fp ≠ none)) :=
  ⟨rfl, by decide, by decide,
    (C19_handle_iff_counter_positive (fun _ => true) zeroBuf).1 demoBlocks _ rfl⟩

/-! ## File names -/

theorem filename_digits :
    ∀ i, i < 1000 → filename i =
      String.mk [Nat.digitChar (i / 100), Nat.digitChar (i / 10 % 10), Nat.digitChar (i % 10),
        '.', 'j', 'p', 'g'] := by
  decide

theorem digitChar_inj : ∀ d, d < 10 → ∀ e, e < 10 → Nat.digitChar d = Nat.digitChar e → d = e := by
  decide

theorem filename_inj (i j : Nat) (hi : i < 1000) (hj : j < 1000)
    (h : filename i = filename j) : i = j := by
  rw [filename_digits i hi, filename_digits j hj] at h
  injection h with h
  simp only [List.cons.injEq, and_true] at h
  obtain ⟨h1, h2, h3⟩ := h
  have a := digitChar_inj (i / 100) (by omega) (j / 100) (by omega) h1
  have b := digitChar_inj (i / 10 % 10) (by omega) (j / 10 % 10) (by omega) h2
  have c := digitChar_inj (i % 10) (by omega) (j % 10) (by omega) h3
  omega

theorem names_nodup (n : Nat) (hn : n ≤ 1000) : ((List.range n).map filename).Nodup := by
  apply List.Nodup.map_on
  · intro i hi j hj h
    rw [List.mem_range] at hi hj
    exact filename_inj i j (by omega) (by omega) h
  · exact List.nodup_range n

/-- C12. The counter starts at 0; the names passed to `fopen` are, in call order,
the names built from 0, 1, 2, ... up to the final counter, one increment per
call; the final counter is at most 1000, so every index used is at most 999; and
for such an index the name is its three decimal digits, zero-padded, followed
by `.jpg`: 7 characters, which with the terminating zero fill the 8-byte
buffer. -/
theorem C12_names_count_up_from_zero (canCreate : Nat → Bool) (buf : Buffer)
    (blocks : List (List Nat)) :
    (init buf).nfile = 0 ∧
    opens (carve canCreate (init buf) blocks).2.log
      = (List.range (carve canCreate (init buf) blocks).2.nfile).map filename ∧
    (opens (carve canCreate (init buf) blocks).2.log).length
      = (carve canCreate (init buf) blocks).2.nfile ∧
    (carve canCreate (init buf) blocks).2.nfile ≤ 1000 ∧
    (∀ i, i < 1000 →
      filename i = String.mk [Nat.digitChar (i / 100), Nat.digitChar (i / 10 % 10),
        Nat.digitChar (i % 10), '.', 'j', 'p', 'g'] ∧
      (filename i).length = 7) ∧
    filename 0 = "000.jpg" ∧ filename 1 = "001.jpg" ∧ filename 999 = "999.jpg" := by
  obtain ⟨hn, _, ho⟩ := carve_inv canCreate blocks (init buf) (init_inv buf)
  refine ⟨rfl, ho, by rw [ho]; simp, hn, ?_, by decide, by decide, by decide⟩
  intro i hi
  refine ⟨filename_digits i hi, ?_⟩
  rw [filename_digits i hi]
  rfl

/-- C13. In every scan the calls on recovered files obey the discipline replayed by
`sessions`: a file is opened only while none is open, every close and every write
goes through the one open handle, and at exit no file is open; and no name is
passed to `fopen` twice. -/
theorem C13_one_file_open_at_a_time (canCreate : Nat → Bool) (buf : Buffer)
    (blocks : List (List Nat)) :
    sessions none (carve canCreate (init buf) blocks).2.log = some none ∧
    (opens (carve canCreate (init buf) blocks).2.log).Nodup ∧
    (∀ (front : List (List Nat)) (s : State),
      runLoop canCreate (init buf) front = Outcome.running s →
        sessions none s.log = some s.jpg_fp) := by
  obtain ⟨hn, hs, ho⟩ := carve_inv canCreate blocks (init buf) (init_inv buf)
  refine ⟨hs, ?_, ?_⟩
  · rw [ho]
    exact names_nodup _ hn
  · intro front s hr
    exact ((runLoop_inv canCreate front (init buf) (init_inv buf)).1 s hr).2.2.1

/-- The discipline check is not vacuous: opening a second file while one is open,
or closing a null handle, is rejected. -/
theorem sessions_rejects :
    sessions none [Event.fopenW "000.jpg" (some 0), Event.fopenW "001.jpg" (some 1)] = none ∧
      sessions none [Event.fclose none] = none ∧
      sessions none [Event.fopenW "000.jpg" (some 0), Event.fclose (some 0),
        Event.fwrite 0 [1]] = none := by
  decide

/-! ## Failure to create a file -/

theorem loopBody_sig_fail_log (canCreate : Nat → Bool) (s : State) (n : Nat)
    (hs : sigcheck s.buffer n = true) (h : s.nfile ≤ NUM_FILE_MAX)
    (hc : canCreate s.nfile = false) :
    ∃ s1, loopBody canCreate s n = Outcome.exited (Termination.createFailed s.nfile) s1 ∧
      s1.files = s.files ∧
      s1.log = s.log ++ (match s.jpg_fp with
          | some h => [Event.fclose (some h)]
          | none => []) ++
        [Event.fopenW (filename s.nfile) none, Event.fcloseImg, Event.freeBuffer] := by
  have e : (closePrevious s).nfile = s.nfile := by
    unfold closePrevious; split <;> rfl
  have e2 : (closePrevious s).files = s.files := by
    unfold closePrevious; split <;> rfl
  have e3 : (closePrevious s).log = s.log ++ (match s.jpg_fp with
      | some h => [Event.fclose (some h)]
      | none => []) := by
    unfold closePrevious
    cases s.jpg_fp <;> simp
  simp only [loopBody, hs, h, decide_True, Bool.and_self, if_true, e, hc]
  refine ⟨_, rfl, ?_, ?_⟩
  · simp [e2]
  · simp [e3]

/-- C14. Let the blocks `front` be scanned without exit, let the next block `x`
satisfy `sigcheck` while the counter is at most `NUM_FILE_MAX`, and let the
creation of the file for `x` fail.  Then the scan of `front ++ x :: rest` ends at
`x` with the creation error, status 1; the files are exactly those the scan of
`front` alone leaves, so `x` is written nowhere; the calls after those made for
`front` are the close of the open file (if any), the failed `fopen`, the close of
the input and the release of the buffer, whatever `rest` is. -/
theorem C14_create_failure_aborts (canCreate : Nat → Bool) (buf : Buffer)
    (front rest : List (List Nat)) (x : List Nat)
    (hv : ValidBlocks (front ++ x :: rest))
    (hrun : (carve canCreate (init buf) front).1 = Termination.success)
    (hsig : sigcheck (fread (runLoop canCreate (init buf) front).state.buffer x).1 x.length
      = true)
    (hn : (runLoop canCreate (init buf) front).state.nfile ≤ NUM_FILE_MAX)
    (hfail : canCreate (runLoop canCreate (init buf) front).state.nfile = false) :
    (carve canCreate (init buf) (front ++ x :: rest)).1
        = Termination.createFailed (runLoop canCreate (init buf) front).state.nfile ∧
      (carve canCreate (init buf) (front ++ x :: rest)).1.status = 1 ∧
      (carve canCreate (init buf) (front ++ x :: rest)).2.files
        = (carve canCreate (init buf) front).2.files ∧
      (carve canCreate (init buf) (front ++ x :: rest)).2.log
        = (runLoop canCreate (init buf) front).state.log ++
          (match (runLoop canCreate (init buf) front).state.jpg_fp with
            | some h => [Event.fclose (some h)]
            | none => []) ++
          [Event.fopenW (filename (runLoop canCreate (init buf) front).state.nfile) none,
            Event.fcloseImg, Event.freeBuffer] := by
  have hne := nonempty_of_valid _ hv
  have hvf : ∀ b ∈ front, b ≠ [] := fun b hb => hne b (List.mem_append_left _ hb)
  have hx : x ≠ [] := hne x (List.mem_append_right _ (List.mem_cons_self _ _))
  obtain ⟨s1, e1, e2, _, _⟩ := runLoop_of_success canCreate front (init buf) hrun
  rw [e1] at hsig hn hfail ⊢
  simp only [Outcome.state] at hsig hn hfail ⊢
  obtain ⟨s2, k1, k2, k3⟩ := loopBody_sig_fail_log canCreate
    { s1 with buffer := (fread s1.buffer x).1 } x.length hsig hn hfail
  have hl : x.length ≠ 0 := by simpa using hx
  have hcarve : carve canCreate (init buf) (front ++ x :: rest)
      = (Termination.createFailed s1.nfile, s2) := by
    rw [carve_eq_runLoop, runLoop_append canCreate front (x :: rest) (init buf) hvf, e1]
    simp only [runLoop, hl, if_false, fread_count, k1]
  rw [hcarve, e2]
  exact ⟨rfl, rfl, k2, k3⟩

/-- C14, witness: `000.jpg` is created and written, the creation of `001.jpg`
fails. -/
theorem C14_create_failure_aborts_witness :
    ValidBlocks ([[0xff, 0xd8, 0xff, 0xe0, 1], [2, 3]] ++ [0xff, 0xd8, 0xff, 0xe1] :: [[9]]) ∧
    (carve onlyFirst (init zeroBuf) [[0xff, 0xd8, 0xff, 0xe0, 1], [2, 3]]).1
      = Termination.success ∧
    (carve onlyFirst (init zeroBuf)
        ([[0xff, 0xd8, 0xff, 0xe0, 1], [2, 3]] ++ [0xff, 0xd8, 0xff, 0xe1] :: [[9]])).1
      = Termination.createFailed 1 ∧
    (carve onlyFirst (init zeroBuf)
        ([[0xff, 0xd8, 0xff, 0xe0, 1], [2, 3]] ++ [0xff, 0xd8, 0xff, 0xe1] :: [[9]])).2.files
      = [(0, [0xff, 0xd8, 0xff, 0xe0, 1, 2, 3])] ∧
    (carve onlyFirst (init zeroBuf)
        ([[0xff, 0xd8, 0xff, 0xe0, 1], [2, 3]] ++ [0xff, 0xd8, 0xff, 0xe1] :: [[9]])).2.log
      = [Event.fopenW "000.jpg" (some 0), Event.fwrite 0 [0xff, 0xd8, 0xff, 0xe0, 1],
          Event.fwrite 0 [2, 3], Event.fclose (some 0), Event.fopenW "001.jpg" none,
          Event.fcloseImg, Event.freeBuffer] :=
  have h := C14_create_failure_aborts onlyFirst zeroBuf [[0xff, 0xd8, 0xff, 0xe0, 1], [2, 3]]
    [[9]] [0xff, 0xd8, 0xff, 0xe1] (by decide) (by decide) (by decide) (by decide) (by decide)
  ⟨by decide, by decide, h.1, h.2.2.1.trans (by decide), h.2.2.2.trans (by decide)⟩

/-! ## The start of `main` -/

theorem status_le_one (t : Termination) : t.status ≤ 1 := by
  cases t <;> simp [Termination.status, EXIT_SUCCESS, EXIT_FAILURE]

/-- C16. The program exits with status 2 exactly when `argc` is not 2 or `argv[1]`
is `-h` or `--help`, and it has then opened no file.  Otherwise it calls `fopen` on
`argv[1]`, once, and exits with status 1 without scanning when that call yields
`NULL`. -/
theorem C16_usage_exit (argv : List String)
    (openInput : String → Option (List (List Nat))) (canCreate : Nat → Bool)
    (buf0 : Buffer) :
    ((main argv openInput canCreate buf0).status = 2 ↔
      (argv.length ≠ 2 ∨ argv.getD 1 "" = "-h" ∨ argv.getD 1 "" = "--help")) ∧
    ((main argv openInput canCreate buf0).status = 2 →
      (main argv openInput canCreate buf0).inputOpens = [] ∧
      (main argv openInput canCreate buf0).scan = none) ∧
    (¬ (argv.length ≠ 2 ∨ argv.getD 1 "" = "-h" ∨ argv.getD 1 "" = "--help") →
      (main argv openInput canCreate buf0).inputOpens = [argv.getD 1 ""] ∧
      (openInput (argv.getD 1 "") = none →
        (main argv openInput canCreate buf0).status = 1 ∧
        (main argv openInput canCreate buf0).scan = none) ∧
      (∀ blocks, openInput (argv.getD 1 "") = some blocks →
        (main argv openInput canCreate buf0).scan
          = some (carve canCreate (init buf0) blocks) ∧
        (main argv openInput canCreate buf0).status
          = (carve canCreate (init buf0) blocks).1.status)) := by
  have hidx : CF_CARD_FILE_INDEX = 1 := rfl
  have hreq : REQ_ARG_COUNT = 2 := rfl
  have hb : HELP_FLAG_BRIEF = "-h" := rfl
  have hvb : HELP_FLAG_VERBOSE = "--help" := rfl
  have hh : EXIT_HELP_NEEDED = 2 := rfl
  have hf : EXIT_FAILURE = 1 := rfl
  unfold main
  rw [hidx, hreq, hb, hvb, hh, hf]
  generalize argv.getD 1 "" = a
  by_cases h1 : argv.length ≠ 2
  · simp [h1]
  · by_cases h2 : a = "-h"
    · simp [h1, h2]
    · by_cases h3 : a = "--help"
      · simp [h1, h2, h3]
      · have h1b : argv.length = 2 := by simpa using h1
        have hs := fun blocks => status_le_one (carve canCreate (init buf0) blocks).1
        cases ho : openInput a with
        | none => simp [h1b, h2, h3]
        | some blocks =>
          have := hs blocks
          simp [h1b, h2, h3]
          omega

/-- C16, at inputs: no argument, a help flag, a file that cannot be opened. -/
theorem C16_usage_exit_witness :
    (main ["jpgdig"] (fun _ => none) (fun _ => true) zeroBuf).status = 2 ∧
    (main ["jpgdig", "--help"] (fun _ => some []) (fun _ => true) zeroBuf).status = 2 ∧
    (main ["jpgdig", "card.raw", "x"] (fun _ => some []) (fun _ => true) zeroBuf).status = 2 ∧
    (main ["jpgdig", "card.raw"] (fun _ => none) (fun _ => true) zeroBuf).status = 1 ∧
    (main ["jpgdig", "card.raw"] (fun _ => none) (fun _ => true) zeroBuf).inputOpens
      = ["card.raw"] ∧
    (main ["jpgdig", "card.raw"] (fun _ => some demoBlocks) (fun _ => true) zeroBuf).status
      = 0 :=
  ⟨((C16_usage_exit ["jpgdig"] (fun _ => none) (fun _ => true) zeroBuf).1).mpr
      (Or.inl (by decide)),
    by decide, by decide, by decide, by decide, by decide⟩

/-! ## The thousandth file -/

theorem sigFlags_append (front back : List (List Nat)) :
    ∀ buf, sigFlags buf (front ++ back)
      = sigFlags buf front ++ sigFlags (bufferAfter buf front) back := by
  induction front with
  | nil => intro buf; rfl
  | cons b bs ih =>
    intro buf
    simp only [List.cons_append, sigFlags_cons, bufferAfter, ih]

theorem segments_snoc_true (x : List Nat) (fs : List Bool) :
    ∀ (bs : List (List Nat)) (cur : List Nat), fs.length = bs.length →
      segments (fs ++ [true]) (bs ++ [x]) cur = segments fs bs cur ++ [x] := by
  induction fs with
  | nil =>
    intro bs cur h
    cases bs with
    | nil => rfl
    | cons b bs => simp at h
  | cons f fs ih =>
    intro bs cur h
    cases bs with
    | nil => simp at h
    | cons b bs =>
      have h2 : fs.length = bs.length := by simpa using h
      cases f
      · exact ih bs (cur ++ b) h2
      · exact congrArg (cur :: ·) (ih bs b h2)

theorem segmentsIdle_snoc_true (x : List Nat) (fs : List Bool) :
    ∀ (bs : List (List Nat)), fs.length = bs.length →
      segmentsIdle (fs ++ [true]) (bs ++ [x]) = segmentsIdle fs bs ++ [x] := by
  induction fs with
  | nil =>
    intro bs h
    cases bs with
    | nil => rfl
    | cons b bs => simp at h
  | cons f fs ih =>
    intro bs h
    cases bs with
    | nil => simp at h
    | cons b bs =>
      have h2 : fs.length = bs.length := by simpa using h
      cases f
      · exact ih bs h2
      · exact segments_snoc_true x fs bs b h2

/-- C20. Let `front` hold 999 blocks on which `sigcheck` is true, let `sigcheck` be
true on the next block `x` (the block that makes `999.jpg`), and let no creation
fail.  Then the scan of `front ++ x :: back` leaves 1000 files, and `999.jpg` holds
exactly `x`; the files are those of the scan that stops after `x`.  The scan ends
with success when `back` is empty, and with the file-count error, status 1, when
it is not: the first block of `back`, with or without signature, is never
written. -/
theorem C20_last_file_holds_one_block (canCreate : Nat → Bool)
    (hc : ∀ i, canCreate i = true) (buf : Buffer) (front back : List (List Nat))
    (x : List Nat) (hv : ValidBlocks (front ++ x :: back))
    (h999 : (sigFlags buf front).count true = 999)
    (hx : sigcheck (fread (bufferAfter buf front) x).1 x.length = true) :
    (carve canCreate (init buf) (front ++ x :: back)).2.files.length = 1000 ∧
    (carve canCreate (init buf) (front ++ x :: back)).2.files[999]? = some (999, x) ∧
    (carve canCreate (init buf) (front ++ x :: back)).2.files
      = (carve canCreate (init buf) (front ++ [x])).2.files ∧
    (back = [] → (carve canCreate (init buf) (front ++ x :: back)).1 = Termination.success) ∧
    (back ≠ [] →
      (carve canCreate (init buf) (front ++ x :: back)).1 = Termination.maxFiles ∧
      (carve canCreate (init buf) (front ++ x :: back)).1.status = 1) := by
  have hne := nonempty_of_valid _ hv
  have hv1 : ValidBlocks (front ++ [x]) := by
    intro b hb
    apply hv b
    rcases List.mem_append.mp hb with h | h
    · exact List.mem_append_left _ h
    · exact List.mem_append_right _ (by rw [List.mem_singleton.mp h]; exact List.mem_cons_self _ _)
  have hfl : sigFlags buf (front ++ [x]) = sigFlags buf front ++ [true] := by
    rw [sigFlags_append]
    simp only [sigFlags, fread_count, hx]
  have hlen := sigFlags_length front buf
  obtain ⟨c1, c2, c3, c4⟩ := carve_count canCreate hc (front ++ [x]) (init buf)
    (nonempty_of_valid _ hv1) rfl (by simp [init])
  have hb : (init buf).buffer = buf := rfl
  have hn0 : (init buf).nfile = 0 := rfl
  have hmax : NUM_FILE_MAX + 1 = 1000 := rfl
  rw [hb, hn0, hfl, hmax] at c1 c2 c3
  simp only [zero_add, List.count_append, h999, List.count_singleton_self] at c1 c2
  have hok : (carve canCreate (init buf) (front ++ [x])).1 = Termination.success := by
    rcases c4 with h | h
    · exact h
    · obtain ⟨j, hj, hj2⟩ := c3.mp h
      simp only [List.length_append, List.length_singleton] at hj
      rw [List.take_append_of_le_length (by omega)] at hj2
      have := count_take_le (sigFlags buf front) j
      omega
  have hfiles := carve_idle_files canCreate (front ++ [x]) (init buf)
    (nonempty_of_valid _ hv1) rfl rfl rfl hok
  rw [hb, hfl, segmentsIdle_snoc_true x _ front hlen] at hfiles
  have hslen : (segmentsIdle (sigFlags buf front) front).length = 999 := by
    have := congrArg List.length c1
    rw [hfiles] at this
    simp at this
    omega
  have hget : (carve canCreate (init buf) (front ++ [x])).2.files[999]? = some (999, x) := by
    rw [hfiles, List.getElem?_enumFrom,
      List.getElem?_append_right (by omega)]
    simp [hslen]
  have hl : (carve canCreate (init buf) (front ++ [x])).2.files.length = 1000 := by
    have := congrArg List.length c1
    simpa using this
  cases back with
  | nil =>
    refine ⟨hl, hget, rfl, fun _ => hok, fun h => absurd rfl h⟩
  | cons y rest =>
    have hy : y ≠ [] := hne y (List.mem_append_right _
      (List.mem_cons_of_mem _ (List.mem_cons_self _ _)))
    obtain ⟨a1, a2, _, _⟩ := carve_append_full canCreate (front ++ [x]) rest y (init buf)
      (nonempty_of_valid _ hv1) hy hok (by rw [c2]; decide)
    have e : front ++ [x] ++ y :: rest = front ++ x :: y :: rest := by simp
    rw [e] at a1 a2
    refine ⟨?_, ?_, a2, ?_, ?_⟩
    · rw [a2]; exact hl
    · rw [a2]; exact hget
    · intro h; cases h
    · intro _
      exact ⟨a1, by rw [a1]; rfl⟩

theorem flags_replicate_sig (buf : Buffer) (n : Nat) :
    sigFlags buf (List.replicate n sigBlock) = List.replicate n true := by
  rw [sigFlags_long _ (by intro b hb; rw [List.eq_of_mem_replicate hb]; decide)]
  simp [sigBlock_flag]

/-- C20, witness: 999 signature blocks, a signature block, a block of zeros. -/
theorem C20_last_file_holds_one_block_witness :
    (∀ i, (fun _ => true : Nat → Bool) i = true) ∧
    ValidBlocks (List.replicate 999 sigBlock ++ sigBlock :: [plainBlock]) ∧
    (sigFlags zeroBuf (List.replicate 999 sigBlock)).count true = 999 ∧
    sigcheck (fread (bufferAfter zeroBuf (List.replicate 999 sigBlock)) sigBlock).1
      sigBlock.length = true ∧
    ((carve (fun _ => true) (init zeroBuf)
        (List.replicate 999 sigBlock ++ sigBlock :: [plainBlock])).2.files.length = 1000 ∧
    (carve (fun _ => true) (init zeroBuf)
        (List.replicate 999 sigBlock ++ sigBlock :: [plainBlock])).2.files[999]?
      = some (999, sigBlock) ∧
    (carve (fun _ => true) (init zeroBuf)
        (List.replicate 999 sigBlock ++ sigBlock :: [plainBlock])).2.files
      = (carve (fun _ => true) (init zeroBuf) (List.replicate 999 sigBlock ++ [sigBlock])).2.files ∧
    ([plainBlock] = [] →
      (carve (fun _ => true) (init zeroBuf)
        (List.replicate 999 sigBlock ++ sigBlock :: [plainBlock])).1 = Termination.success) ∧
    ([plainBlock] ≠ [] →
      (carve (fun _ => true) (init zeroBuf)
        (List.replicate 999 sigBlock ++ sigBlock :: [plainBlock])).1 = Termination.maxFiles ∧
      (carve (fun _ => true) (init zeroBuf)
        (List.replicate 999 sigBlock ++ sigBlock :: [plainBlock])).1.status = 1)) :=
  have hv : ValidBlocks (List.replicate 999 sigBlock ++ sigBlock :: [plainBlock]) := by
    intro b hb
    rcases List.mem_append.mp hb with h | h
    · rw [List.eq_of_mem_replicate h]; decide
    · rcases List.mem_cons.mp h with h | h
      · rw [h]; decide
      · rw [List.mem_singleton.mp h]; decide
  have h999 : (sigFlags zeroBuf (List.replicate 999 sigBlock)).count true = 999 := by
    rw [flags_replicate_sig, List.count_replicate_self]
  have hx : sigcheck (fread (bufferAfter zeroBuf (List.replicate 999 sigBlock)) sigBlock).1
      sigBlock.length = true := by
    rw [sigcheck_fread_long _ _ (by decide)]
    exact sigBlock_flag
  ⟨fun _ => rfl, hv, h999, hx,
    C20_last_file_holds_one_block (fun _ => true) (fun _ => rfl) zeroBuf
      (List.replicate 999 sigBlock) [plainBlock] sigBlock hv h999 hx⟩

theorem loopBody_buffer (canCreate : Nat → Bool) (s : State) (n : Nat) :
    (∀ s1, loopBody canCreate s n = Outcome.running s1 → s1.buffer = s.buffer) ∧
    (∀ a s1, loopBody canCreate s n = Outcome.exited a s1 → s1.buffer = s.buffer) := by
  have ec : (closePrevious s).buffer = s.buffer := by
    unfold closePrevious; split <;> rfl
  have ew : ∀ (u : State) (k : Nat), (writeBlock u k).buffer = u.buffer :=
    fun u k => (writeBlock_facts u k).1
  unfold loopBody
  split
  · dsimp only
    split
    · constructor
      · intro s1 e
        cases e
        rw [ew]
        exact ec
      · intro a s1 e; cases e
    · constructor
      · intro s1 e; cases e
      · intro a s1 e
        cases e
        exact ec
  · split
    · constructor
      · intro s1 e; cases e
      · intro a s1 e
        cases e
        rfl
    · constructor
      · intro s1 e
        cases e
        exact ew s n
      · intro a s1 e; cases e

/-! ## What the scan takes from the buffer -/

/-- One iteration run on two states that differ in the buffer only, when `sigcheck`
gives the same answer on both buffers and the bytes to write are the same: the
outcomes differ in the buffer only. -/
theorem loopBody_congr (canCreate : Nat → Bool) (s t : State) (n : Nat)
    (h : SameButBuffer s t) (hsig : sigcheck s.buffer n = sigcheck t.buffer n)
    (hdata : (List.range n).map s.buffer = (List.range n).map t.buffer) :
    (∀ s1, loopBody canCreate s n = Outcome.running s1 →
      ∃ t1, loopBody canCreate t n = Outcome.running t1 ∧ SameButBuffer s1 t1) ∧
    (∀ a s1, loopBody canCreate s n = Outcome.exited a s1 →
      ∃ t1, loopBody canCreate t n = Outcome.exited a t1 ∧ SameButBuffer s1 t1) := by
  obtain ⟨sb, sj, sn, sf, sl⟩ := s
  obtain ⟨tb, tj, tn, tf, tl⟩ := t
  obtain ⟨h1, h2, h3, h4⟩ := h
  simp only at h1 h2 h3 h4 hsig hdata
  subst h1 h2 h3 h4
  by_cases hfull : NUM_FILE_MAX < sn
  · rw [loopBody_full canCreate _ n hfull, loopBody_full canCreate _ n hfull]
    constructor
    · intro s1 e; cases e
    · intro a s1 e
      cases e
      exact ⟨_, rfl, rfl, rfl, rfl, rfl⟩
  · have hle : sn ≤ NUM_FILE_MAX := by omega
    cases hs : sigcheck tb n with
    | false =>
      rw [hs] at hsig
      rw [loopBody_plain canCreate _ n hsig hle, loopBody_plain canCreate _ n hs hle]
      constructor
      · intro s1 e
        cases e
        refine ⟨_, rfl, ?_⟩
        cases sj with
        | none => exact ⟨rfl, rfl, rfl, rfl⟩
        | some c =>
          simp only [writeBlock, hdata]
          exact ⟨rfl, rfl, rfl, rfl⟩
      · intro a s1 e; cases e
    | true =>
      rw [hs] at hsig
      have hcs : (sigcheck sb n && decide (sn ≤ NUM_FILE_MAX)) = true := by simp [hsig, hle]
      have hct : (sigcheck tb n && decide (sn ≤ NUM_FILE_MAX)) = true := by simp [hs, hle]
      cases hc : canCreate sn with
      | true =>
        cases sj with
        | none =>
          simp only [loopBody, closePrevious, hcs, hct, hc, if_true, writeBlock, hdata]
          constructor
          · intro s1 e
            cases e
            exact ⟨_, rfl, rfl, rfl, rfl, rfl⟩
          · intro a s1 e; cases e
        | some c =>
          simp only [loopBody, closePrevious, hcs, hct, hc, if_true, writeBlock, hdata]
          constructor
          · intro s1 e
            cases e
            exact ⟨_, rfl, rfl, rfl, rfl, rfl⟩
          · intro a s1 e; cases e
      | false =>
        cases sj with
        | none =>
          simp only [loopBody, closePrevious, hcs, hct, hc, if_true]
          constructor
          · intro s1 e; cases e
          · intro a s1 e
            cases e
            exact ⟨_, rfl, rfl, rfl, rfl, rfl⟩
        | some c =>
          simp only [loopBody, closePrevious, hcs, hct, hc, if_true]
          constructor
          · intro s1 e; cases e
          · intro a s1 e
            cases e
            exact ⟨_, rfl, rfl, rfl, rfl, rfl⟩

theorem finish_congr (s t : State) (h : SameButBuffer s t) :
    (finish s).1 = (finish t).1 ∧ SameButBuffer (finish s).2 (finish t).2 := by
  obtain ⟨sb, sj, sn, sf, sl⟩ := s
  obtain ⟨tb, tj, tn, tf, tl⟩ := t
  obtain ⟨h1, h2, h3, h4⟩ := h
  simp only at h1 h2 h3 h4
  subst h1 h2 h3 h4
  cases sj <;> exact ⟨rfl, rfl, rfl, rfl, rfl⟩

/-- The scan takes nothing from the buffer but the answers of `sigcheck` and the
bytes of the blocks: two scans of the same blocks, started on states that differ
in the buffer only, on which `sigcheck` gives the same answers, end in the same
way with the same files and the same calls. -/
theorem carve_congr (canCreate : Nat → Bool) (blocks : List (List Nat)) :
    ∀ (s t : State), SameButBuffer s t → sigFlags s.buffer blocks = sigFlags t.buffer blocks →
      (carve canCreate s blocks).1 = (carve canCreate t blocks).1 ∧
        SameButBuffer (carve canCreate s blocks).2 (carve canCreate t blocks).2 := by
  induction blocks with
  | nil =>
    intro s t h _
    exact finish_congr s t h
  | cons blk rest ih =>
    intro s t h hf
    rw [sigFlags_cons, sigFlags_cons] at hf
    injection hf with hf1 hf2
    have h0 : SameButBuffer { s with buffer := (fread s.buffer blk).1 }
        { t with buffer := (fread t.buffer blk).1 } := h
    have hd : (List.range (fread s.buffer blk).2).map (fread s.buffer blk).1
        = (List.range (fread s.buffer blk).2).map (fread t.buffer blk).1 := by
      rw [fread_data]
      exact (fread_data t.buffer blk).symm
    obtain ⟨c1, c2⟩ := loopBody_congr canCreate { s with buffer := (fread s.buffer blk).1 }
      { t with buffer := (fread t.buffer blk).1 } (fread s.buffer blk).2 h0 hf1 hd
    simp only [carve]
    have hcnt : (fread t.buffer blk).2 = (fread s.buffer blk).2 := rfl
    rw [hcnt]
    split
    · exact finish_congr _ _ h0
    · cases hl : loopBody canCreate { s with buffer := (fread s.buffer blk).1 }
        (fread s.buffer blk).2 with
      | running s1 =>
        obtain ⟨t1, e, hs1⟩ := c1 s1 hl
        rw [e]
        exact ih s1 t1 hs1 (by
          have b1 := (loopBody_buffer canCreate _ _).1 s1 hl
          have b2 := (loopBody_buffer canCreate _ _).1 t1 e
          rw [b1, b2]
          exact hf2)
      | exited a s1 =>
        obtain ⟨t1, e, hs1⟩ := c2 a s1 hl
        rw [e]
        exact ⟨rfl, hs1⟩

/-- On blocks of four bytes or more the scan does not depend on what the buffer
held before the first read. -/
theorem carve_long_blocks (canCreate : Nat → Bool) (blocks : List (List Nat))
    (h : ∀ b ∈ blocks, 4 ≤ b.length) (buf1 buf2 : Buffer) :
    (carve canCreate (init buf1) blocks).1 = (carve canCreate (init buf2) blocks).1 ∧
      SameButBuffer (carve canCreate (init buf1) blocks).2
        (carve canCreate (init buf2) blocks).2 := by
  apply carve_congr canCreate blocks (init buf1) (init buf2) ⟨rfl, rfl, rfl, rfl⟩
  show sigFlags buf1 blocks = sigFlags buf2 blocks
  rw [sigFlags_long blocks h buf1, sigFlags_long blocks h buf2]

/-- Blocks without signature read while no file is open leave no trace but in the
buffer. -/
theorem carve_skip_idle (canCreate : Nat → Bool) (back : List (List Nat))
    (front : List (List Nat)) :
    ∀ (s : State), (∀ b ∈ front, b ≠ []) → s.jpg_fp = none → s.nfile ≤ NUM_FILE_MAX →
      (∀ f ∈ sigFlags s.buffer front, f = false) →
      ∃ s1, carve canCreate s (front ++ back) = carve canCreate s1 back ∧
        s1.buffer = bufferAfter s.buffer front ∧ SameButBuffer s1 s := by
  induction front with
  | nil =>
    intro s _ _ _ _
    exact ⟨s, rfl, rfl, rfl, rfl, rfl, rfl⟩
  | cons blk rest ih =>
    intro s hv hj hn hno
    have hb : blk ≠ [] := hv blk (List.mem_cons_self _ _)
    have hv2 : ∀ b ∈ rest, b ≠ [] := fun b hb2 => hv b (List.mem_cons_of_mem _ hb2)
    rw [sigFlags_cons] at hno
    have hs := hno _ (List.mem_cons_self _ _)
    obtain ⟨s1, e, eb, ej, en, ef, el⟩ :=
      carve_plain_idle canCreate s blk (rest ++ back) hb hn hs hj
    obtain ⟨s2, e2, eb2, ej2, en2, ef2, el2⟩ := ih s1 hv2 ej (by omega)
      (by rw [eb]; exact fun f hf => hno f (List.mem_cons_of_mem _ hf))
    refine ⟨s2, ?_, ?_, ?_, ?_, ?_, ?_⟩
    · rw [List.cons_append, e, e2]
    · rw [eb2, eb]; rfl
    · rw [ej2, ej, hj]
    · rw [en2, en]
    · rw [ef2, ef]
    · rw [el2, el]

/-- Leading blocks without signature change nothing in the result as long as they
do not change the answers of `sigcheck` on the blocks that follow, which is the
case when those have four bytes or more. -/
theorem carve_drop_leading (canCreate : Nat → Bool) (buf : Buffer)
    (front back : List (List Nat)) (hv : ∀ b ∈ front, b ≠ [])
    (hno : ∀ f ∈ sigFlags buf front, f = false)
    (hsame : sigFlags (bufferAfter buf front) back = sigFlags buf back) :
    (carve canCreate (init buf) (front ++ back)).1 = (carve canCreate (init buf) back).1 ∧
      SameButBuffer (carve canCreate (init buf) (front ++ back)).2
        (carve canCreate (init buf) back).2 := by
  obtain ⟨s1, e, eb, hs⟩ := carve_skip_idle canCreate back front (init buf) hv rfl
    (by simp [init]) hno
  rw [e]
  apply carve_congr canCreate back s1 (init buf) hs
  rw [eb]
  exact hsame

/-! ## The stale byte: three more consequences -/

/-- C11 (code defect). Leading blocks without signature are not without effect.
The image of 513 bytes whose first block is `00 e0 00 ...` and whose last block
is the single byte `ff`: `sigcheck` is false on the first block; the scan of both
blocks creates `000.jpg` holding `ff`, the scan of the last block alone (buffer
of zeros in both scans) creates no file. -/
theorem C11_leading_block_changes_files :
    FileBlocks ([staleBlock] ++ [[0xff]]) ∧
    (∀ f ∈ sigFlags zeroBuf [staleBlock], f = false) ∧
    (carve (fun _ => true) (init zeroBuf) ([staleBlock] ++ [[0xff]])).1
      = Termination.success ∧
    (carve (fun _ => true) (init zeroBuf) ([staleBlock] ++ [[0xff]])).2.files
      = [(0, [0xff])] ∧
    (carve (fun _ => true) (init zeroBuf) [[0xff]]).1 = Termination.success ∧
    (carve (fun _ => true) (init zeroBuf) [[0xff]]).2.files = [] := by
  refine ⟨?_, ?_, ?_, ?_, ?_, ?_⟩
  · simp [FileBlocks, staleBlock, BLOCK_SIZE]
  · decide
  · decide
  · decide
  · decide
  · decide

/-- C15 (code defect). The result depends on what the fresh buffer holds.  The
image made of the single byte `ff`: with a buffer of zeros the scan creates no
file; with a buffer holding `e0` at offset 1 it creates `000.jpg` holding `ff`. -/
theorem C15_result_depends_on_fresh_buffer :
    FileBlocks [[0xff]] ∧
    (carve (fun _ => true) (init zeroBuf) [[0xff]]).2.files = [] ∧
    (carve (fun _ => true) (init zeroBuf) [[0xff]]).2.log
      = [Event.fcloseImg, Event.freeBuffer] ∧
    (carve (fun _ => true) (init staleBuf) [[0xff]]).2.files = [(0, [0xff])] ∧
    (carve (fun _ => true) (init staleBuf) [[0xff]]).2.log
      = [Event.fopenW "000.jpg" (some 0), Event.fwrite 0 [0xff], Event.fclose (some 0),
          Event.fcloseImg, Event.freeBuffer] := by
  refine ⟨?_, ?_, ?_, ?_, ?_⟩
  · simp [FileBlocks, BLOCK_SIZE]
  · decide
  · decide
  · decide
  · decide

/-- C18 (code defect). The decision at a short block depends on the block before it.
Two images of 513 bytes end with the same block, the single byte `ff`, and differ
in the first block only (`00 e0 00 ...` against zeros), on which `sigcheck` is
false in both; the counter is 0 when the last block is read in both.  The first
scan opens a file at the last block, the second does not. -/
theorem C18_decision_depends_on_earlier_block :
    FileBlocks [staleBlock, [0xff]] ∧ FileBlocks [plainBlock, [0xff]] ∧
    (runLoop (fun _ => true) (init zeroBuf) [staleBlock]).state.nfile = 0 ∧
    (runLoop (fun _ => true) (init zeroBuf) [plainBlock]).state.nfile = 0 ∧
    sigFlags zeroBuf [staleBlock, [0xff]] = [false, true] ∧
    sigFlags zeroBuf [plainBlock, [0xff]] = [false, false] ∧
    (carve (fun _ => true) (init zeroBuf) [staleBlock, [0xff]]).2.files = [(0, [0xff])] ∧
    (carve (fun _ => true) (init zeroBuf) [plainBlock, [0xff]]).2.files = [] := by
  refine ⟨?_, ?_, ?_, ?_, ?_, ?_, ?_, ?_⟩
  · simp [FileBlocks, staleBlock, BLOCK_SIZE]
  · simp [FileBlocks, plainBlock, BLOCK_SIZE]
  · decide
  · decide
  · decide
  · decide
  · decide
  · decide

/-! ## The signature read on the bytes of a block -/

/-- On a block of four bytes or more, whatever the buffer held, `sigcheck` answers
whether the block begins with a signature. -/
theorem sigcheck_fread_eq_begins (buf : Buffer) (blk : List Nat) (h : 4 ≤ blk.length) :
    sigcheck (fread buf blk).1 blk.length = beginsWithSignature blk := by
  match blk, h with
  | a :: b :: c :: d :: tail, _ =>
    rw [Bool.eq_iff_iff, sigcheck_iff_of_three_le _ _ (by simp)]
    simp [fread, beginsWithSignature, FOURTH_BYTE_MIN, FOURTH_BYTE_MAX, and_assoc]

theorem sigFlags_eq_begins (blocks : List (List Nat)) (h : ∀ b ∈ blocks, 4 ≤ b.length) :
    ∀ buf, sigFlags buf blocks = blocks.map beginsWithSignature := by
  induction blocks with
  | nil => intro buf; rfl
  | cons b bs ih =>
    intro buf
    rw [sigFlags_cons, List.map_cons,
      sigcheck_fread_eq_begins buf b (h b (List.mem_cons_self _ _)),
      ih (fun c hc => h c (List.mem_cons_of_mem _ hc))]

/-- When every block has four bytes or more, the files of a successful scan are the
input cut at the blocks that begin with a signature. -/
theorem files_partition_at_signature_blocks (canCreate : Nat → Bool) (buf : Buffer)
    (blocks : List (List Nat)) (hv : ValidBlocks blocks) (hlong : ∀ b ∈ blocks, 4 ≤ b.length)
    (hok : (carve canCreate (init buf) blocks).1 = Termination.success) :
    (carve canCreate (init buf) blocks).2.files.length = (signaturePositions blocks).length ∧
    (∀ (i : Nat) (h : i < (signaturePositions blocks).length),
      (carve canCreate (init buf) blocks).2.files[i]? =
        some (i, slice blocks ((signaturePositions blocks).get ⟨i, h⟩)
          ((signaturePositions blocks).getD (i + 1) blocks.length))) ∧
    ((carve canCreate (init buf) blocks).2.files.map Prod.snd).flatten =
      (blocks.drop ((signaturePositions blocks).headD blocks.length)).flatten := by
  have e : sigPositions buf blocks = signaturePositions blocks := by
    unfold sigPositions signaturePositions
    rw [sigFlags_eq_begins blocks hlong buf]
  have key : ∀ ps, sigPositions buf blocks = ps →
      (carve canCreate (init buf) blocks).2.files.length = ps.length ∧
      (∀ (i : Nat) (h : i < ps.length),
        (carve canCreate (init buf) blocks).2.files[i]? =
          some (i, slice blocks (ps.get ⟨i, h⟩) (ps.getD (i + 1) blocks.length))) ∧
      ((carve canCreate (init buf) blocks).2.files.map Prod.snd).flatten =
        (blocks.drop (ps.headD blocks.length)).flatten := by
    intro ps hps
    subst hps
    exact files_partition_at_flagged_blocks canCreate buf blocks hv hok
  exact key _ e

/-- When every block has four bytes or more: a block that begins with a signature
followed by blocks that do not gives one file, `000.jpg`, holding all the
blocks. -/
theorem one_signature_block_one_file (canCreate : Nat → Bool)
    (hc : ∀ i, canCreate i = true) (buf : Buffer) (b0 : List Nat) (rest : List (List Nat))
    (hv : ValidBlocks (b0 :: rest)) (hlong : ∀ b ∈ b0 :: rest, 4 ≤ b.length)
    (h0 : beginsWithSignature b0 = true) (hr : ∀ b ∈ rest, beginsWithSignature b = false) :
    (carve canCreate (init buf) (b0 :: rest)).1 = Termination.success ∧
      (carve canCreate (init buf) (b0 :: rest)).2.files = [(0, (b0 :: rest).flatten)] := by
  have hf : sigFlags buf (b0 :: rest) = true :: List.replicate rest.length false := by
    rw [sigFlags_eq_begins _ hlong buf, List.map_cons, h0]
    congr 1
    apply List.eq_replicate_iff.mpr
    refine ⟨by simp, ?_⟩
    intro f hf
    obtain ⟨b, hb, e⟩ := List.mem_map.mp hf
    rw [← e]
    exact hr b hb
  obtain ⟨a1, a2, _⟩ := one_flagged_block_one_file canCreate hc buf b0 rest hv hf
  exact ⟨a1, a2⟩

/-! ## The stale byte: the partition and the single file -/

/-- C2 (code defect). The image of 513 bytes whose first block is `00 e0 00 ...` and
whose last block is the single byte `ff`: no block begins with a signature, so
there is no position `p_0` and the claim allows no file; the scan ends with success
and has created `000.jpg`, holding `ff`.  The file comes from the range test of
`sigcheck`, which reads offset 1 of the buffer, a byte of the first block. -/
theorem C2_file_without_signature_block :
    FileBlocks [staleBlock, [0xff]] ∧
    [staleBlock, [0xff]].map beginsWithSignature = [false, false] ∧
    signaturePositions [staleBlock, [0xff]] = [] ∧
    (carve (fun _ => true) (init zeroBuf) [staleBlock, [0xff]]).1 = Termination.success ∧
    (carve (fun _ => true) (init zeroBuf) [staleBlock, [0xff]]).2.files = [(0, [0xff])] ∧
    (carve (fun _ => true) (init zeroBuf) [staleBlock, [0xff]]).2.files.length
      ≠ (signaturePositions [staleBlock, [0xff]]).length := by
  refine ⟨?_, ?_, ?_, ?_, ?_, ?_⟩
  · simp [FileBlocks, staleBlock, BLOCK_SIZE]
  · decide
  · decide
  · decide
  · decide
  · decide

/-- C6 (code defect). The image of 1025 bytes made of a full block that begins with
`ff d8 ff e0`, the full block `00 e0 00 ...` and the single byte `ff`: one block
with a signature followed by two blocks without.  The claim gives one file holding
the three blocks; the scan ends with success and has created two files, `000.jpg`
holding the first two blocks and `001.jpg` holding `ff`. -/
theorem C6_short_block_opens_second_file :
    FileBlocks [sigBlock, staleBlock, [0xff]] ∧
    [sigBlock, staleBlock, [0xff]].map beginsWithSignature = [true, false, false] ∧
    sigFlags zeroBuf [sigBlock, staleBlock, [0xff]] = [true, false, true] ∧
    (carve (fun _ => true) (init zeroBuf) [sigBlock, staleBlock, [0xff]]).1
      = Termination.success ∧
    (carve (fun _ => true) (init zeroBuf) [sigBlock, staleBlock, [0xff]]).2.files
      = [(0, sigBlock ++ staleBlock), (1, [0xff])] ∧
    (carve (fun _ => true) (init zeroBuf) [sigBlock, staleBlock, [0xff]]).2.files
      ≠ [(0, [sigBlock, staleBlock, [0xff]].flatten)] := by
  have hfiles : (carve (fun _ => true) (init zeroBuf) [sigBlock, staleBlock, [0xff]]).2.files
      = [(0, sigBlock ++ staleBlock), (1, [0xff])] := by
    decide
  refine ⟨?_, ?_, ?_, ?_, hfiles, ?_⟩
  · simp [FileBlocks, sigBlock, staleBlock, BLOCK_SIZE]
  · decide
  · decide
  · decide
  · rw [hfiles]
    intro h
    have := congrArg List.length h
    simp at this

end Jpgdig
